import Mathlib

/-!
Verification development for the storage core of an educational relational
database (BusTub-style): an LRU replacer, a buffer pool manager, and a B+ tree
index driven through the buffer pool.

The definitions below are a shallow embedding of the repository's C++ sources:

* `LRU.*`      embeds `src/buffer/lru_replacer.cpp`;
* `BPM.*`      embeds `src/buffer/buffer_pool_manager.cpp`;
* `BPT.*`      embeds `src/index/b_plus_tree.cpp` together with
  `src/page/b_plus_tree_internal_page.cpp`.

The leaf-page implementation (`b_plus_tree_leaf_page.cpp`), the common
tree-page header implementation (`b_plus_tree_page.cpp`) and the header page
are not part of the sources; the handful of leaf/header operations the tree
needs are modelled from the specification and are marked `Modelled from the
spec:` in their doc comments.

C++ `assert` statements are modelled as no-ops (release / NDEBUG semantics):
they never influence control flow in the sources.
-/

/-- Association-list lookup over integer keys (`std::unordered_map::find`). -/
def assocFind {α : Type} : List (Int × α) → Int → Option α
  | [], _ => none
  | (q, w) :: rest, p => if q = p then some w else assocFind rest p

/-- In-place association-list update, appending when the key is new
(`std::unordered_map::operator[] =`). -/
def assocPut {α : Type} : List (Int × α) → Int → α → List (Int × α)
  | [], p, v => [(p, v)]
  | (q, w) :: rest, p, v => if q = p then (p, v) :: rest else (q, w) :: assocPut rest p v

/-- Association-list erase (`std::unordered_map::erase`; no-op when the key is
absent). -/
def assocDrop {α : Type} : List (Int × α) → Int → List (Int × α)
  | [], _ => []
  | (q, w) :: rest, p => if q = p then rest else (q, w) :: assocDrop rest p

namespace LRU

/-- The replacer state: `usedFrames`, a sequence of frame ids.  The head of the
list is the front (most recently unpinned), the last element is the back
(least recently unpinned, i.e. the eviction victim). -/
abbrev State := List Nat

/-- `LRUReplacer::Victim`: if `usedFrames` is empty return failure, otherwise
remove the back element and return it. -/
def victim (l : State) : Option (Nat × State) :=
  match l.getLast? with
  | none => none
  | some f => some (f, l.dropLast)

/-- `LRUReplacer::Pin`: remove the first occurrence of `frame_id` from
`usedFrames` if present (`std::find` + `erase`), otherwise do nothing. -/
def pin (l : State) (f : Nat) : State :=
  l.erase f

/-- `LRUReplacer::Unpin`: if `frame_id` is already present do nothing,
otherwise push it at the front. -/
def unpin (l : State) (f : Nat) : State :=
  if f ∈ l then l else f :: l

/-- `LRUReplacer::Size`. -/
def size (l : State) : Nat := l.length

/-- Unpin the frames of `fs` in order, starting from an empty replacer. -/
def unpinAll (fs : List Nat) : State :=
  fs.foldl (fun l f => unpin l f) []

/-- Perform `n` successive `Victim` calls, collecting each call's result
(`some f` on success, `none` on failure). -/
def victims : Nat → State → List (Option Nat)
  | 0, _ => []
  | n + 1, l =>
    match victim l with
    | none => none :: victims n l
    | some (f, l1) => some f :: victims n l1

end LRU

namespace BPT

/-- Page identifier.  `-1` encodes `INVALID_PAGE_ID`. -/
abbrev PageId := Int

/-- `INVALID_PAGE_ID`. -/
def INVALID : PageId := -1

/-- BufferPool traffic events recorded by the child-adoption helpers of the
internal page (the only BufferPool calls whose occurrence the claims mention).
All other pin/unpin bookkeeping has no effect on page contents and is not
recorded. -/
inductive Ev
  | fetch (p : PageId)
  | unpin (p : PageId) (dirty : Bool)
  deriving Repr, DecidableEq

/-- A B+ tree page, the common header (`page_type`, `size`, `max_size`,
`parent_page_id`, `page_id`) plus the entry array.  For an internal page the
entries are `(key, child page id)` with entry 0's key a dummy; for a leaf they
are `(key, value)` and `next` is the leaf chain pointer.  `size` is
`entries.length`. -/
structure BTPage where
  isLeaf : Bool
  maxSize : Nat
  parent : PageId
  pageId : PageId
  entries : List (Int × Int)
  next : PageId
  deriving Repr, DecidableEq

/-- A freshly allocated, zeroed page before `Init` runs on it. -/
def emptyPage : BTPage :=
  { isLeaf := true, maxSize := 0, parent := INVALID, pageId := INVALID,
    entries := [], next := INVALID }

/-- The state of a `BPlusTree` together with the pages backing it.  Because
the claims about the tree assume no buffer-pool capacity failure, the buffer
pool and the disk are collapsed into the single page store `pages`; pin counts
never influence page contents on these paths.  `nextPid` is the DiskManager's
`AllocatePage` counter and `headerRoot` the header-page record for this index
(`none` before `InsertRecord` ran). -/
structure TreeState where
  leafMax : Nat
  internalMax : Nat
  pages : List (PageId × BTPage)
  nextPid : Int
  rootPid : PageId
  headerRoot : Option PageId
  trace : List Ev
  deriving Repr, DecidableEq

def getPage (s : TreeState) (p : PageId) : BTPage :=
  (assocFind s.pages p).getD emptyPage

def setPage (s : TreeState) (p : PageId) (pg : BTPage) : TreeState :=
  { s with pages := assocPut s.pages p pg }

/-- `BufferPoolManager::DeletePage` on the page store. -/
def delPage (s : TreeState) (p : PageId) : TreeState :=
  { s with pages := assocDrop s.pages p }

/-- `DiskManager::AllocatePage` + `BufferPoolManager::NewPage`: a fresh,
zeroed page. -/
def newTreePage (s : TreeState) : TreeState × PageId :=
  ({ s with nextPid := s.nextPid + 1, pages := assocPut s.pages s.nextPid emptyPage },
   s.nextPid)

/-- `BPlusTreeLeafPage::Init`.  Modelled from the spec: the leaf page
implementation is not among the sources; per the spec a new leaf starts empty
with `next_page_id = INVALID`. -/
def initLeafPage (pid parent : PageId) (maxSize : Nat) : BTPage :=
  { isLeaf := true, maxSize, parent, pageId := pid, entries := [], next := INVALID }

/-- `BPlusTreeInternalPage::Init`. -/
def initInternalPage (pid parent : PageId) (maxSize : Nat) : BTPage :=
  { isLeaf := false, maxSize, parent, pageId := pid, entries := [], next := INVALID }

/-- Modelled from the spec: `b_plus_tree_page.cpp` (defining `GetMinSize`) is
not among the sources.  Per the spec, a non-root leaf's minimum is
`⌈(max_size−1)/2⌉` and a non-root internal's is `⌈max_size/2⌉` (T4 exempts the
root from the lower bound); `AdjustRoot`'s preconditions (a root leaf reaches
it only once empty, a root internal once it has one child) fix the root
minima at 1 for a leaf and 2 for an internal. -/
def getMinSize (pg : BTPage) : Nat :=
  if pg.parent = INVALID then (if pg.isLeaf then 1 else 2)
  else if pg.isLeaf then pg.maxSize / 2 else (pg.maxSize + 1) / 2

/-- `KeyAt` with a `Nat` index. -/
def keyAt (pg : BTPage) (i : Nat) : Int :=
  (pg.entries.getD i (0, INVALID)).1

/-- `KeyAt` with the C++ `int` index (out-of-range reads yield the zeroed
default; the asserts are elided). -/
def keyAtI (pg : BTPage) (i : Int) : Int :=
  if i < 0 then 0 else keyAt pg i.toNat

/-- `SetKeyAt` (out-of-range writes are dropped; the asserts are elided). -/
def setKeyAt (pg : BTPage) (i : Int) (k : Int) : BTPage :=
  if i < 0 then pg
  else { pg with entries := pg.entries.set i.toNat (k, (pg.entries.getD i.toNat (0, INVALID)).2) }

/-- `ValueAt` with the C++ `int` index. -/
def valueAt (pg : BTPage) (i : Int) : Int :=
  if i < 0 then INVALID else (pg.entries.getD i.toNat (0, INVALID)).2

/-- `BPlusTreeInternalPage::KeyIndex`: linear scan from index 0 (the dummy
slot included) for an entry whose key equals `k`; `-1` when absent. -/
def keyIndex (pg : BTPage) (k : Int) : Int :=
  match pg.entries.findIdx? (fun e => e.1 == k) with
  | some i => (i : Int)
  | none => -1

/-- `BPlusTreeInternalPage::ValueIndex`: index of the entry whose value is
`v`; `-1` when absent. -/
def valueIndex (pg : BTPage) (v : Int) : Int :=
  match pg.entries.findIdx? (fun e => e.2 == v) with
  | some i => (i : Int)
  | none => -1

def internalLookupGo (k : Int) : (Int × Int) → List (Int × Int) → Int
  | prev, [] => prev.2
  | prev, e :: rest => if k < e.1 then prev.2 else internalLookupGo k e rest

/-- `BPlusTreeInternalPage::Lookup`: starting from index 1, return the child
left of the first key strictly greater than `k`, or the last child. -/
def internalLookup (pg : BTPage) (k : Int) : PageId :=
  match pg.entries with
  | [] => INVALID
  | e0 :: rest => internalLookupGo k e0 rest

/-- `PopulateNewRoot`: `array[0].second := old`, `array[1] := (key, new)`,
parent invalid, size 2.  Slot 0's key keeps the fresh page's zeroed bytes,
i.e. the integer key 0. -/
def populateNewRoot (pg : BTPage) (oldv : PageId) (k : Int) (newv : PageId) : BTPage :=
  { pg with entries := [(0, oldv), (k, newv)], parent := INVALID }

/-- `InsertNodeAfter`: insert `(k, newv)` right after the entry whose value is
`oldv`. -/
def insertNodeAfter (pg : BTPage) (oldv : Int) (k : Int) (newv : Int) : BTPage :=
  let idx := (valueIndex pg oldv + 1).toNat
  { pg with entries := pg.entries.take idx ++ [(k, newv)] ++ pg.entries.drop idx }

/-- `BPlusTreeInternalPage::Remove`: delete the entry at `index`, shifting the
rest left. -/
def internalRemove (pg : BTPage) (i : Int) : BTPage :=
  if i < 0 then pg
  else { pg with entries := pg.entries.take i.toNat ++ pg.entries.drop (i.toNat + 1) }

/-- `RemoveAndReturnOnlyChild`: return `ValueAt 0` and drop to size 0. -/
def removeAndReturnOnlyChild (pg : BTPage) : Int × BTPage :=
  ((pg.entries.headD (0, INVALID)).2, { pg with entries := [] })

/-- The child-adoption step shared by the internal page's move routines:
fetch the child through the BufferPool, set its `parent_page_id`, and unpin
it dirty. -/
def adoptChild (s : TreeState) (child : PageId) (newParent : PageId) : TreeState :=
  let s1 := { s with trace := s.trace ++ [Ev.fetch child] }
  let pg := getPage s1 child
  let s2 := setPage s1 child { pg with parent := newParent }
  { s2 with trace := s2.trace ++ [Ev.unpin child true] }

def adoptAll (s : TreeState) (children : List Int) (newParent : PageId) : TreeState :=
  children.foldl (fun st c => adoptChild st c newParent) s

/-- `BPlusTreeInternalPage::MoveHalfTo`: with `total = max_size + 1` and
`copyIdx = total / 2`, the entries at indices `copyIdx ..` move to the
recipient and each moved child is adopted by the recipient. -/
def internalMoveHalfTo (s : TreeState) (nodePid recipPid : PageId) : TreeState :=
  let node := getPage s nodePid
  let recip := getPage s recipPid
  let total := node.maxSize + 1
  let copyIdx := total / 2
  let moved := node.entries.drop copyIdx
  let s := setPage s recipPid { recip with entries := moved }
  let s := setPage s nodePid { node with entries := node.entries.take copyIdx }
  adoptAll s (moved.map Prod.snd) recipPid

/-- `BPlusTreeInternalPage::CopyLastFrom`: append `pair` and adopt its
child. -/
def internalCopyLastFrom (s : TreeState) (pid : PageId) (pair : Int × Int) : TreeState :=
  let pg := getPage s pid
  let s := setPage s pid { pg with entries := pg.entries ++ [pair] }
  adoptChild s pair.2 pid

/-- `BPlusTreeInternalPage::CopyFirstFrom`.  The C++ shift loop runs with an
ascending index (`for i = 0; i < size; i++: array[i+1] = array[i]`), so after
the loop every slot `1 .. size` holds a copy of the original slot 0; then
slot 0's value and slot 1's key are overwritten and the size grows by one.
This (mis)behaviour is reproduced faithfully. -/
def internalCopyFirstFrom (s : TreeState) (pid : PageId) (pair : Int × Int) : TreeState :=
  let pg := getPage s pid
  let e0 := pg.entries.headD (0, INVALID)
  let n := pg.entries.length
  let arr := List.replicate (n + 1) e0
  let arr := arr.set 0 (e0.1, pair.2)
  let arr := arr.set 1 (pair.1, e0.2)
  let s := setPage s pid { pg with entries := arr }
  adoptChild s pair.2 pid

/-- `BPlusTreeInternalPage::MoveAllTo`: write the parent separator into the
dummy slot, append everything to the recipient, adopt the moved children,
drop to size 0. -/
def internalMoveAllTo (s : TreeState) (nodePid recipPid : PageId) (middleKey : Int) : TreeState :=
  let node := setKeyAt (getPage s nodePid) 0 middleKey
  let s := setPage s nodePid node
  let recip := getPage s recipPid
  let s := setPage s recipPid { recip with entries := recip.entries ++ node.entries }
  let s := adoptAll s (node.entries.map Prod.snd) recipPid
  setPage s nodePid { getPage s nodePid with entries := [] }

/-- `BPlusTreeInternalPage::MoveFirstToEndOf`: remove this page's first child
pointer (and the key at index 1), append `(middle_key, that child)` to the
recipient, then look the `middle_key` up in the parent with `KeyIndex` and
overwrite that slot with the removed key. -/
def internalMoveFirstToEndOf (s : TreeState) (thisPid recipPid : PageId) (middleKey : Int) :
    TreeState :=
  let pg := getPage s thisPid
  let removedKey := keyAtI pg 1
  let removedPtr := (pg.entries.headD (0, INVALID)).2
  let s := setPage s thisPid { pg with entries := pg.entries.drop 1 }
  let s := internalCopyLastFrom s recipPid (middleKey, removedPtr)
  let parentPid := (getPage s thisPid).parent
  let parent := getPage s parentPid
  setPage s parentPid (setKeyAt parent (keyIndex parent middleKey) removedKey)

/-- `BPlusTreeInternalPage::MoveLastToFrontOf`: remove this page's last entry,
push `(middle_key, its child)` at the recipient's front via `CopyFirstFrom`,
then look the `middle_key` up in the parent with `KeyIndex` and overwrite that
slot with the removed key. -/
def internalMoveLastToFrontOf (s : TreeState) (thisPid recipPid : PageId) (middleKey : Int) :
    TreeState :=
  let pg := getPage s thisPid
  let last := pg.entries.getLastD (0, INVALID)
  let s := setPage s thisPid { pg with entries := pg.entries.dropLast }
  let s := internalCopyFirstFrom s recipPid (middleKey, last.2)
  let parentPid := (getPage s thisPid).parent
  let parent := getPage s parentPid
  setPage s parentPid (setKeyAt parent (keyIndex parent middleKey) last.1)

/-- Modelled from the spec: `BPlusTreeLeafPage::Lookup` (the leaf page
implementation is not among the sources) — point lookup of `k` in the leaf's
sorted entry array. -/
def leafLookup (pg : BTPage) (k : Int) : Option Int :=
  (pg.entries.find? (fun e => e.1 == k)).map Prod.snd

def leafInsertEntries : List (Int × Int) → Int → Int → List (Int × Int)
  | [], k, v => [(k, v)]
  | e :: rest, k, v => if k < e.1 then (k, v) :: e :: rest else e :: leafInsertEntries rest k v

/-- Modelled from the spec: `BPlusTreeLeafPage::Insert` — insert `(k, v)`
preserving ascending key order (the caller has already ruled out a
duplicate). -/
def leafInsert (pg : BTPage) (k v : Int) : BTPage :=
  { pg with entries := leafInsertEntries pg.entries k v }

/-- Modelled from the spec: `BPlusTreeLeafPage::RemoveAndDeleteRecord` —
delete the entry with key `k` if present (keys are unique), keeping the rest
contiguous. -/
def leafRemove (pg : BTPage) (k : Int) : BTPage :=
  { pg with entries := pg.entries.eraseP (fun e => e.1 == k) }

/-- Modelled from the spec: `BPlusTreeLeafPage::MoveHalfTo` — on an overflowed
leaf the entries at indices `max_size/2 ..` move to the fresh leaf and the
chain is spliced (`new.next = old.next; old.next = new`). -/
def leafMoveHalfTo (s : TreeState) (nodePid recipPid : PageId) : TreeState :=
  let node := getPage s nodePid
  let recip := getPage s recipPid
  let copyIdx := node.maxSize / 2
  let s := setPage s recipPid { recip with entries := node.entries.drop copyIdx, next := node.next }
  setPage s nodePid { node with entries := node.entries.take copyIdx, next := recipPid }

/-- Modelled from the spec: `BPlusTreeLeafPage::MoveAllTo` — leaf coalesce:
append everything to the left-hand recipient, which inherits the removed
leaf's `next_page_id`. -/
def leafMoveAllTo (s : TreeState) (nodePid recipPid : PageId) : TreeState :=
  let node := getPage s nodePid
  let recip := getPage s recipPid
  let s := setPage s recipPid { recip with entries := recip.entries ++ node.entries, next := node.next }
  setPage s nodePid { node with entries := [] }

/-- Modelled from the spec: `BPlusTreeLeafPage::MoveFirstToEndOf` — leaf
redistribution with a right-hand donor: its first entry moves to the end of
the recipient and the parent's separator routing to the donor becomes the
donor's new first key. -/
def leafMoveFirstToEndOf (s : TreeState) (thisPid recipPid : PageId) : TreeState :=
  let pg := getPage s thisPid
  let e := pg.entries.headD (0, 0)
  let s := setPage s thisPid { pg with entries := pg.entries.drop 1 }
  let recip := getPage s recipPid
  let s := setPage s recipPid { recip with entries := recip.entries ++ [e] }
  let parentPid := (getPage s thisPid).parent
  let parent := getPage s parentPid
  setPage s parentPid (setKeyAt parent (valueIndex parent thisPid) (keyAt (getPage s thisPid) 0))

/-- Modelled from the spec: `BPlusTreeLeafPage::MoveLastToFrontOf` — leaf
redistribution with a left-hand donor: its last entry moves to the front of
the recipient and the parent's separator routing to the recipient becomes the
moved key. -/
def leafMoveLastToFrontOf (s : TreeState) (thisPid recipPid : PageId) : TreeState :=
  let pg := getPage s thisPid
  let e := pg.entries.getLastD (0, 0)
  let s := setPage s thisPid { pg with entries := pg.entries.dropLast }
  let recip := getPage s recipPid
  let s := setPage s recipPid { recip with entries := e :: recip.entries }
  let parentPid := (getPage s recipPid).parent
  let parent := getPage s parentPid
  setPage s parentPid (setKeyAt parent (valueIndex parent recipPid) e.1)

/-- `BPlusTree::IsEmpty`. -/
def isEmpty (s : TreeState) : Bool := s.rootPid == INVALID

/-- `BPlusTree::UpdateRootPageId`.  Modelled from the spec for the header
page's side: `InsertRecord` adds the `⟨index name, root id⟩` record,
`UpdateRecord` overwrites it when present. -/
def updateRootPageId (s : TreeState) (insertRecord : Bool) : TreeState :=
  if insertRecord then { s with headerRoot := some s.rootPid }
  else { s with headerRoot := s.headerRoot.map (fun _ => s.rootPid) }

def findLeafGo (s : TreeState) (k : Int) (leftMost : Bool) : Nat → PageId → Option PageId
  | 0, _ => none
  | fuel + 1, cur =>
    let pg := getPage s cur
    if pg.isLeaf then some cur
    else findLeafGo s k leftMost fuel (if leftMost then valueAt pg 0 else internalLookup pg k)

/-- `BPlusTree::FindLeafPage`: descend from the root, choosing child 0 when
`leftMost` and `Lookup key` otherwise.  The descent is fuelled by the page
count, an upper bound on the height; no reachable run exhausts it. -/
def findLeafPage (s : TreeState) (k : Int) (leftMost : Bool) : Option PageId :=
  if isEmpty s then none else findLeafGo s k leftMost (s.pages.length + 1) s.rootPid

/-- `BPlusTree::GetValue`. -/
def getValue (s : TreeState) (k : Int) : Option Int :=
  match findLeafPage s k false with
  | none => none
  | some lp => leafLookup (getPage s lp) k

/-- `BPlusTree::StartNewTree`. -/
def startNewTree (s : TreeState) (k v : Int) : TreeState :=
  let (s, pid) := newTreePage s
  let s := setPage s pid (initLeafPage pid INVALID s.leafMax)
  let s := { s with rootPid := pid }
  let s := updateRootPageId s true
  setPage s pid (leafInsert (getPage s pid) k v)

/-- `BPlusTree::Split` instantiated at a leaf page. -/
def splitLeaf (s : TreeState) (pid : PageId) : TreeState × PageId :=
  let (s, npid) := newTreePage s
  let node := getPage s pid
  let s := setPage s npid (initLeafPage npid node.parent node.maxSize)
  (leafMoveHalfTo s pid npid, npid)

/-- `BPlusTree::Split` instantiated at an internal page. -/
def splitInternal (s : TreeState) (pid : PageId) : TreeState × PageId :=
  let (s, npid) := newTreePage s
  let node := getPage s pid
  let s := setPage s npid (initInternalPage npid node.parent node.maxSize)
  (internalMoveHalfTo s pid npid, npid)

/-- `BPlusTree::InsertIntoParent`, fuelled for the recursion up the tree. -/
def insertIntoParent : Nat → TreeState → PageId → Int → PageId → TreeState
  | 0, s, _, _, _ => s
  | fuel + 1, s, oldPid, key, newPid =>
    let old := getPage s oldPid
    if old.parent == INVALID then
      let (s, rootPid1) := newTreePage s
      let s := { s with rootPid := rootPid1 }
      let newRoot := populateNewRoot (initInternalPage rootPid1 INVALID s.internalMax)
        oldPid key newPid
      let s := setPage s rootPid1 newRoot
      let s := setPage s oldPid { getPage s oldPid with parent := rootPid1 }
      let s := setPage s newPid { getPage s newPid with parent := rootPid1 }
      updateRootPageId s false
    else
      let parentId := old.parent
      let s := setPage s newPid { getPage s newPid with parent := parentId }
      let parent := insertNodeAfter (getPage s parentId) oldPid key newPid
      let s := setPage s parentId parent
      if parent.entries.length > parent.maxSize then
        let (s, npid) := splitInternal s parentId
        insertIntoParent fuel s parentId (keyAt (getPage s npid) 0) npid
      else s

/-- `BPlusTree::InsertIntoLeaf`. -/
def insertIntoLeaf (s : TreeState) (k v : Int) : TreeState × Bool :=
  match findLeafPage s k false with
  | none => (s, false)
  | some lp =>
    let leaf := getPage s lp
    match leafLookup leaf k with
    | some _ => (s, false)
    | none =>
      let leaf := leafInsert leaf k v
      let s := setPage s lp leaf
      if leaf.entries.length > leaf.maxSize then
        let (s1, npid) := splitLeaf s lp
        (insertIntoParent (s1.pages.length + 1) s1 lp (keyAt (getPage s1 npid) 0) npid, true)
      else (s, true)

/-- `BPlusTree::Insert`. -/
def insert (s : TreeState) (k v : Int) : TreeState × Bool :=
  if isEmpty s then (startNewTree s k v, true) else insertIntoLeaf s k v

/-- `BPlusTree::AdjustRoot`. -/
def adjustRoot (s : TreeState) (pid : PageId) : TreeState :=
  let old := getPage s pid
  if old.isLeaf then
    let s := delPage s pid
    let s := { s with rootPid := INVALID }
    updateRootPageId s false
  else if old.entries.length == 1 then
    let (newRootId, old1) := removeAndReturnOnlyChild old
    let s := setPage s pid old1
    let s := { s with rootPid := newRootId }
    let s := updateRootPageId s false
    let s := setPage s newRootId { getPage s newRootId with parent := INVALID }
    delPage s pid
  else s

/-- `BPlusTree::Redistribute`: borrow from the right sibling when `index = 0`,
from the left sibling otherwise. -/
def redistribute (s : TreeState) (neighborPid nodePid : PageId) (index : Int)
    (middleKey : Int) : TreeState :=
  if index == 0 then
    if (getPage s nodePid).isLeaf then leafMoveFirstToEndOf s neighborPid nodePid
    else internalMoveFirstToEndOf s neighborPid nodePid middleKey
  else
    if (getPage s nodePid).isLeaf then leafMoveLastToFrontOf s neighborPid nodePid
    else internalMoveLastToFrontOf s neighborPid nodePid middleKey

/-- `BPlusTree::CoalesceOrRedistribute`, fuelled for the recursion up the
tree, with `FindSibling` and `Coalesce` inlined at their only call sites
(keeping the recursion structural in the fuel).  `Coalesce` moves the
rightward node into its leftward neighbour, deletes its page, removes the
separator from the parent, and recurses when the parent underflows. -/
def coalesceOrRedistribute : Nat → TreeState → PageId → TreeState
  | 0, s, _ => s
  | fuel + 1, s, pid =>
    let node := getPage s pid
    if node.parent == INVALID then adjustRoot s pid
    else
      let parentPid := node.parent
      let parent := getPage s parentPid
      let index := valueIndex parent pid
      let siblingIndex := if index == 0 then index + 1 else index - 1
      let node2Pid := valueAt parent siblingIndex
      let nPrevN2 := index == 0
      let node2 := getPage s node2Pid
      if node.entries.length + node2.entries.length ≤ node.maxSize then
        -- Coalesce(neighbor, node, parent, removeIndex)
        let p := if nPrevN2 then (node2Pid, pid) else (pid, node2Pid)
        let nodePid := p.1
        let neighborPid := p.2
        let removeIndex := valueIndex parent nodePid
        let middleKey := keyAtI parent removeIndex
        let s :=
          if (getPage s nodePid).isLeaf then leafMoveAllTo s nodePid neighborPid
          else internalMoveAllTo s nodePid neighborPid middleKey
        let s := delPage s nodePid
        let parent1 := internalRemove (getPage s parentPid) removeIndex
        let s := setPage s parentPid parent1
        if parent1.entries.length < getMinSize parent1 then
          coalesceOrRedistribute fuel s parentPid
        else s
      else
        redistribute s node2Pid pid index (keyAtI parent index)

/-- `BPlusTree::Remove`. -/
def remove (s : TreeState) (k : Int) : TreeState :=
  if isEmpty s then s
  else
    match findLeafPage s k false with
    | none => s
    | some lp =>
      let leaf := leafRemove (getPage s lp) k
      let s := setPage s lp leaf
      if leaf.entries.length < getMinSize leaf then
        coalesceOrRedistribute (s.pages.length + 1) s lp
      else s

/-- A tree operation of the scenario runs: insert key `k` with the value `k`,
or remove key `k`. -/
inductive TOp
  | ins (k : Int)
  | del (k : Int)
  deriving Repr, DecidableEq

/-- A fresh `BPlusTree(name, bpm, cmp, leaf_max, internal_max)` over a fresh
DiskManager (page 0 is the header page, so allocation starts at 1). -/
def mkTree (leafMax internalMax : Nat) : TreeState :=
  { leafMax, internalMax, pages := [], nextPid := 1, rootPid := INVALID,
    headerRoot := none, trace := [] }

def applyOp (st : TreeState × List Bool) (op : TOp) : TreeState × List Bool :=
  match op with
  | .ins k => let r := insert st.1 k k
              (r.1, st.2 ++ [r.2])
  | .del k => (remove st.1 k, st.2)

/-- Run a list of operations, collecting each `Insert`'s boolean result. -/
def runOps (s : TreeState) (ops : List TOp) : TreeState × List Bool :=
  ops.foldl applyOp (s, [])

/-- With `leaf_max = 2`, `internal_max = 3`: insert the unique keys `1..6`
(all succeed), then remove key `1`.  The removal triggers a leaf coalesce, the
parent internal underflows at child index 0, and the internal redistribution
path runs with `middle_key = parent.KeyAt(0)` — the dummy slot. -/
def c1Run : TreeState × List Bool :=
  runOps (mkTree 2 3) [.ins 1, .ins 2, .ins 3, .ins 4, .ins 5, .ins 6, .del 1]

/-- The concrete scenario of the claim: `leaf_max = 4`, `internal_max = 5`,
keys `1..10` inserted in ascending order. -/
def c2Before : TreeState :=
  (runOps (mkTree 4 5) [.ins 1, .ins 2, .ins 3, .ins 4, .ins 5, .ins 6, .ins 7,
    .ins 8, .ins 9, .ins 10]).1

/-- `c2Before` after `Remove(1)`. -/
def c2After : TreeState := remove c2Before 1

/-- With `leaf_max = 2`, `internal_max = 3`: insert the set `S = {1,…,6}`,
then remove every key of `S` in ascending order. -/
def c3Run : TreeState × List Bool :=
  runOps (mkTree 2 3) [.ins 1, .ins 2, .ins 3, .ins 4, .ins 5, .ins 6,
    .del 1, .del 2, .del 3, .del 4, .del 5, .del 6]

/-- A concrete split setup: internal page 10 (`max_size = 3`) overflowed to 4
entries over the leaf children 21–24, and page 11 freshly initialised as the
split recipient. -/
def c6Demo : TreeState :=
  { leafMax := 2, internalMax := 3,
    pages :=
      [(10, { isLeaf := false, maxSize := 3, parent := INVALID, pageId := 10,
              entries := [(0, 21), (3, 22), (5, 23), (7, 24)], next := INVALID }),
       (21, { initLeafPage 21 10 2 with entries := [(1, 1), (2, 2)] }),
       (22, { initLeafPage 22 10 2 with entries := [(3, 3), (4, 4)] }),
       (23, { initLeafPage 23 10 2 with entries := [(5, 5), (6, 6)] }),
       (24, { initLeafPage 24 10 2 with entries := [(7, 7), (8, 8)] }),
       (11, initInternalPage 11 INVALID 3)],
    nextPid := 30, rootPid := 10, headerRoot := some 10, trace := [] }

end BPT

namespace BPM

/-- A frame (`Page`): the resident page id (`INVALID_PAGE_ID = -1` when
empty), the pin count (a C++ `int`), the dirty bit, and the page image,
abstracted to a single integer. -/
structure Frame where
  pageId : Int
  pinCount : Int
  isDirty : Bool
  data : Int
  deriving Repr, DecidableEq

/-- A default-constructed / reset frame. -/
def emptyFrame : Frame :=
  { pageId := -1, pinCount := 0, isDirty := false, data := 0 }

/-- The `BufferPoolManager` state together with its collaborators: `disk` is
the map of pages written through `DiskManager::WritePage`, `dealloc` the list
of ids passed to `DiskManager::DeallocatePage`, and `nextPid` the
`DiskManager::AllocatePage` counter. -/
structure State where
  poolSize : Nat
  frames : List Frame
  pageTable : List (Int × Nat)
  freeList : List Nat
  replacer : LRU.State
  disk : List (Int × Int)
  dealloc : List Int
  nextPid : Int
  deriving Repr, DecidableEq

def frameAt (s : State) (f : Nat) : Frame :=
  s.frames.getD f emptyFrame

def setFrame (s : State) (f : Nat) (fr : Frame) : State :=
  { s with frames := s.frames.set f fr }

/-- `DiskManager::ReadPage` (unwritten pages read as zeroed). -/
def diskRead (d : List (Int × Int)) (p : Int) : Int :=
  (assocFind d p).getD 0

/-- `BufferPoolManager::BufferPoolManager`: `pool_size` empty frames, every
frame id on the free list in ascending order, an empty replacer. -/
def init (poolSize : Nat) : State :=
  { poolSize, frames := List.replicate poolSize emptyFrame, pageTable := [],
    freeList := List.range poolSize, replacer := [], disk := [], dealloc := [],
    nextPid := 0 }

/-- The replacement-frame block shared verbatim by `FetchPageImpl` and
`NewPageImpl`: if the free list is non-empty pop its back element; otherwise
ask the replacer for a victim and write the victim frame back if dirty;
`none` when the free list is empty and every frame is pinned. -/
def findReplacementFrame (s : State) : State × Option Nat :=
  match s.freeList.getLast? with
  | some f => ({ s with freeList := s.freeList.dropLast }, some f)
  | none =>
    match LRU.victim s.replacer with
    | none => (s, none)
    | some (f, rep) =>
      let s := { s with replacer := rep }
      let fr := frameAt s f
      let s := if fr.isDirty then { s with disk := assocPut s.disk fr.pageId fr.data } else s
      (s, some f)

/-- `BufferPoolManager::FetchPageImpl`. -/
def fetchPage (s : State) (pid : Int) : State × Option Nat :=
  match assocFind s.pageTable pid with
  | some f =>
    let s := { s with replacer := LRU.pin s.replacer f }
    let fr := frameAt s f
    (setFrame s f { fr with pinCount := fr.pinCount + 1 }, some f)
  | none =>
    match findReplacementFrame s with
    | (s1, none) => (s1, none)
    | (s1, some f) =>
      let old := frameAt s1 f
      let s2 := { s1 with
        pageTable := assocPut (assocDrop s1.pageTable old.pageId) pid f }
      let s3 := { s2 with replacer := LRU.pin s2.replacer f }
      (setFrame s3 f
        { pageId := pid, pinCount := 1, isDirty := false, data := diskRead s3.disk pid },
       some f)

/-- `BufferPoolManager::UnpinPageImpl`. -/
def unpinPage (s : State) (pid : Int) (d : Bool) : State × Bool :=
  match assocFind s.pageTable pid with
  | none => (s, false)
  | some f =>
    let fr := frameAt s f
    let s :=
      if 0 < fr.pinCount then
        let s := setFrame s f { fr with pinCount := fr.pinCount - 1 }
        if fr.pinCount - 1 = 0 then { s with replacer := LRU.unpin s.replacer f } else s
      else s
    let fr2 := frameAt s f
    (setFrame s f { fr2 with isDirty := fr2.isDirty || d }, true)

/-- `BufferPoolManager::FlushPageImpl`. -/
def flushPage (s : State) (pid : Int) : State × Bool :=
  match assocFind s.pageTable pid with
  | none => (s, false)
  | some f =>
    if pid = -1 then (s, false)
    else
      let fr := frameAt s f
      let s := { s with disk := assocPut s.disk pid fr.data }
      (setFrame s f { fr with isDirty := false }, true)

/-- `BufferPoolManager::NewPageImpl`. -/
def newPage (s : State) : State × Option (Int × Nat) :=
  match findReplacementFrame s with
  | (s1, none) => (s1, none)
  | (s1, some f) =>
    let newPID := s1.nextPid
    let s2 := { s1 with nextPid := s1.nextPid + 1 }
    let old := frameAt s2 f
    let s3 := { s2 with
      pageTable := assocPut (assocDrop s2.pageTable old.pageId) newPID f }
    let s4 := { s3 with replacer := LRU.pin s3.replacer f }
    (setFrame s4 f { pageId := newPID, pinCount := 1, isDirty := false, data := 0 },
     some (newPID, f))

/-- `BufferPoolManager::DeletePageImpl`. -/
def deletePage (s : State) (pid : Int) : State × Bool :=
  if pid = -1 then (s, true)
  else
    match assocFind s.pageTable pid with
    | none => (s, true)
    | some f =>
      let fr := frameAt s f
      if 0 < fr.pinCount then (s, false)
      else
        let s := { s with pageTable := assocDrop s.pageTable pid }
        let s := if fr.isDirty then { s with disk := assocPut s.disk fr.pageId fr.data } else s
        let s := { s with dealloc := s.dealloc ++ [pid] }
        let s := { s with replacer := LRU.pin s.replacer f }
        let s := setFrame s f emptyFrame
        ({ s with freeList := s.freeList ++ [f] }, true)

/-- `BufferPoolManager::FlushAllPagesImpl`: for each frame id, flush the page
id currently held by that frame. -/
def flushAll (s : State) : State :=
  (List.range s.poolSize).foldl (fun st fid => (flushPage st (frameAt st fid).pageId).1) s

/-- A BufferPool operation, for quantifying over reachable states. -/
inductive Op
  | fetch (pid : Int)
  | newP
  | unpin (pid : Int) (d : Bool)
  | flush (pid : Int)
  | del (pid : Int)
  | flushAllOp
  deriving Repr, DecidableEq

def step (s : State) : Op → State
  | .fetch pid => (fetchPage s pid).1
  | .newP => (newPage s).1
  | .unpin pid d => (unpinPage s pid d).1
  | .flush pid => (flushPage s pid).1
  | .del pid => (deletePage s pid).1
  | .flushAllOp => flushAll s

/-- The state after running `ops` against a fresh pool of `poolSize` frames:
exactly the reachable BufferPool states. -/
def run (poolSize : Nat) (ops : List Op) : State :=
  ops.foldl step (init poolSize)

/-- Every frame's pin count is non-negative. -/
def pinNonneg (s : State) : Prop :=
  ∀ fr ∈ s.frames, 0 ≤ fr.pinCount

/-- The inductive invariant of the buffer pool used for the free-list claims:
free frames are reset; frames referenced by the page table or the replacer
are never on the free list; the free list, the replacer and the page-table
keys carry no duplicates; free-list and replacer members name real frames;
and a page-table entry's frame really holds that page (spec invariant B2). -/
structure PoolInv (s : State) : Prop where
  freeReset : ∀ f ∈ s.freeList, frameAt s f = emptyFrame
  tableNotFree : ∀ p f, assocFind s.pageTable p = some f → f ∉ s.freeList
  replNotFree : ∀ f ∈ s.replacer, f ∉ s.freeList
  replNodup : s.replacer.Nodup
  freeNodup : s.freeList.Nodup
  freeLt : ∀ f ∈ s.freeList, f < s.frames.length
  tablePageId : ∀ p f, assocFind s.pageTable p = some f → (frameAt s f).pageId = p
  replLt : ∀ f ∈ s.replacer, f < s.frames.length
  keysNodup : (s.pageTable.map Prod.fst).Nodup

/-- A concrete demonstration state: a 2-frame pool after `FetchPage(5)`
(page 5 resident in frame 1 with pin count 1). -/
def demoPinned : State := (fetchPage (init 2) 5).1

/-- `demoPinned` after `UnpinPage(5, false)`: page 5 resident, pin count 0,
frame 1 an eviction candidate. -/
def demoUnpinned : State := (unpinPage demoPinned 5 false).1

end BPM

namespace LRU

theorem unpinAll_go (fs : List Nat) : ∀ acc : State, fs.Nodup →
    (∀ f ∈ fs, f ∉ acc) → fs.foldl (fun l f => unpin l f) acc = fs.reverse ++ acc := by
  induction fs with
  | nil => intro acc _ _; simp
  | cons x t ih =>
    intro acc hnd hdis
    have hx : x ∉ acc := hdis x (by simp)
    simp only [List.foldl_cons, List.reverse_cons]
    rw [unpin, if_neg hx]
    rw [ih (x :: acc) (List.Nodup.of_cons hnd)]
    · simp
    · intro f hf
      simp only [List.mem_cons, not_or]
      exact ⟨fun he => (List.nodup_cons.mp hnd).1 (he ▸ hf), hdis f (by simp [hf])⟩

theorem victims_succ (n : Nat) (l : State) :
    victims (n + 1) l = match victim l with
      | none => none :: victims n l
      | some (f, l1) => some f :: victims n l1 := rfl

theorem victims_reverse (xs : List Nat) :
    victims (xs.length + 1) xs.reverse = xs.map some ++ [none] := by
  induction xs with
  | nil => simp [victims, victim]
  | cons x t ih =>
    have hv : victim (t.reverse ++ [x]) = some (x, t.reverse) := by
      simp [victim, List.getLast?_concat, List.dropLast_concat]
    simp only [List.reverse_cons, List.length_cons, List.map_cons, List.cons_append]
    rw [victims_succ, hv]
    dsimp only
    rw [ih]

end LRU

/-- **C1**: the claim states that after any sequence of `Insert`/`Remove`
operations with unique keys (no capacity failure), `GetValue(k)` succeeds with
the inserted value iff `k` was inserted and not subsequently removed.  The
code violates this: with `leaf_max = 2`, `internal_max = 3`, inserting `1..6`
(every insert returns true) and then removing only key `1` leaves
`GetValue(2)` and `GetValue(3)` returning false, although 2 and 3 were
inserted and never removed.  The slip: when the underfull node is child 0,
`CoalesceOrRedistribute` passes `parent.KeyAt(0)` — the dummy slot — as
`middle_key`, so `MoveFirstToEndOf` appends the dummy key to the recipient and
`KeyIndex(middle_key)` updates the parent's dummy slot instead of the real
separator at index 1. -/
theorem c1_getvalue_lost_after_internal_redistribution :
    BPT.c1Run.2 = [true, true, true, true, true, true]
    ∧ BPT.getValue BPT.c1Run.1 2 = none
    ∧ BPT.getValue BPT.c1Run.1 3 = none := by decide

/-- **C2** (counterexample): the claim asserts that after inserting `1..10`
(`leaf_max = 4`, `internal_max = 5`) and removing key `1`, the leftmost leaf
borrows from its right sibling — "redistribution, no merge" — leaving the
parent's child count unchanged.  In fact the leftmost leaf (page 1, then
holding only key 2) and its right sibling (page 2, holding keys 3 and 4)
satisfy `1 + 2 ≤ leaf_max`, so the code coalesces: page 2 is deleted, its
entries are absorbed into page 1, and the root drops from 4 children to 3. -/
theorem c2_counterexample_merge_not_redistribution :
    (BPT.getPage BPT.c2Before 1).entries = [(1, 1), (2, 2)]
    ∧ (BPT.getPage BPT.c2Before 2).entries = [(3, 3), (4, 4)]
    ∧ (BPT.getPage BPT.c2Before 3).entries.length = 4
    ∧ assocFind BPT.c2After.pages 2 = none
    ∧ (BPT.getPage BPT.c2After 1).entries = [(2, 2), (3, 3), (4, 4)]
    ∧ (BPT.getPage BPT.c2After 3).entries.length = 3 := by decide

/-- **C2** (amended): with `leaf_max = 4`, `internal_max = 5`, after inserting
`1..10` in ascending order and removing key `1`, the underfull leftmost leaf
is merged with its right sibling (coalesce, since their combined size
`1 + 2 ≤ leaf_max`): the sibling's page is deleted, the surviving leaf holds
`[2,3,4]` and inherits the removed leaf's chain pointer, and the parent drops
the separator routing to the deleted sibling (its child count goes from 4 to
3).  `GetValue(1)` returns false and `GetValue(i) = i` for every `i` in
`2..10`. -/
theorem c2_remove_one_coalesces_leftmost_leaves :
    BPT.getValue BPT.c2After 1 = none
    ∧ ([2, 3, 4, 5, 6, 7, 8, 9, 10].all
        (fun i => BPT.getValue BPT.c2After i == some i)) = true
    ∧ (BPT.getPage BPT.c2After 1).entries = [(2, 2), (3, 3), (4, 4)]
    ∧ (BPT.getPage BPT.c2After 1).next = 4
    ∧ assocFind BPT.c2After.pages 2 = none
    ∧ (BPT.getPage BPT.c2After 3).entries.length = 3 := by decide

/-- **C3**: the claim states that inserting a finite set `S` and then
removing every key of `S` (in any order) leaves `IsEmpty() = true`,
`root_page_id = INVALID`, and the header record at INVALID.  The code
violates this: with `leaf_max = 2`, `internal_max = 3`, `S = {1,…,6}`
inserted ascending and removed ascending, the final tree still has root page
3, the header still records root 3, and leaf page 1 still holds key 2 —
the corrupted separators left by the `middle_key` slip in
`CoalesceOrRedistribute`/`MoveFirstToEndOf` make later `Remove` calls descend
to the wrong leaf, so keys 2 and 3 are never deleted. -/
theorem c3_round_trip_leaves_tree_nonempty :
    BPT.c3Run.2 = [true, true, true, true, true, true]
    ∧ BPT.isEmpty BPT.c3Run.1 = false
    ∧ BPT.c3Run.1.rootPid = 3
    ∧ BPT.c3Run.1.headerRoot = some 3
    ∧ (BPT.getPage BPT.c3Run.1 1).entries = [(2, 2)] := by decide

/-- **C4**: starting from an empty replacer, if distinct frames
`f1, …, fn` are each unpinned once in that order with no intervening `Pin` or
`Victim`, then `n` successive `Victim` calls succeed and return `f1, …, fn`
in exactly that order, and an `(n+1)`-th `Victim` call fails. -/
theorem c4_lru_victims_in_unpin_order (fs : List Nat) (h : fs.Nodup) :
    LRU.victims (fs.length + 1) (LRU.unpinAll fs) = fs.map some ++ [none] := by
  have h1 : LRU.unpinAll fs = fs.reverse := by
    have := LRU.unpinAll_go fs [] h (by simp)
    simpa [LRU.unpinAll] using this
  rw [h1, LRU.victims_reverse]

/-- Witness for C4 at the concrete frames `[5, 2, 9]`. -/
theorem c4_lru_victims_in_unpin_order_witness :
    LRU.victims 4 (LRU.unpinAll [5, 2, 9]) = [some 5, some 2, some 9, none] :=
  c4_lru_victims_in_unpin_order [5, 2, 9] (by decide)

theorem assocFind_put_self {α : Type} (l : List (Int × α)) (p : Int) (v : α) :
    assocFind (assocPut l p v) p = some v := by
  induction l with
  | nil => simp [assocPut, assocFind]
  | cons e rest ih =>
    by_cases h : e.1 = p
    · simp [assocPut, assocFind, h]
    · simp [assocPut, assocFind, h, ih]

theorem assocFind_put_ne {α : Type} (l : List (Int × α)) (p q : Int) (v : α) (h : q ≠ p) :
    assocFind (assocPut l q v) p = assocFind l p := by
  induction l with
  | nil => simp [assocPut, assocFind, h]
  | cons e rest ih =>
    obtain ⟨a, b⟩ := e
    by_cases he : a = q
    · subst he
      simp only [assocPut, if_pos rfl, assocFind]
      rw [if_neg h, if_neg (fun hh => h hh)]
    · by_cases hp : a = p
      · subst hp
        simp [assocPut, assocFind, he]
      · simp [assocPut, assocFind, he, hp, ih]

namespace BPT

theorem getPage_setPage_self (s : TreeState) (p : PageId) (pg : BTPage) :
    getPage (setPage s p pg) p = pg := by
  simp [getPage, setPage, assocFind_put_self]

theorem getPage_setPage_ne (s : TreeState) (p q : PageId) (pg : BTPage) (h : q ≠ p) :
    getPage (setPage s q pg) p = getPage s p := by
  simp [getPage, setPage, assocFind_put_ne _ _ _ _ h]

theorem getPage_adoptChild_ne (s : TreeState) (c rid p : PageId) (h : c ≠ p) :
    getPage (adoptChild s c rid) p = getPage s p := by
  simp [adoptChild, getPage, setPage, assocFind_put_ne _ _ _ _ h]

theorem getPage_adoptChild_self (s : TreeState) (c rid : PageId) :
    getPage (adoptChild s c rid) c = { getPage s c with parent := rid } := by
  simp [adoptChild, getPage, setPage, assocFind_put_self]

theorem trace_adoptChild (s : TreeState) (c rid : PageId) :
    (adoptChild s c rid).trace = s.trace ++ [Ev.fetch c, Ev.unpin c true] := by
  simp [adoptChild, setPage]

theorem adoptAll_getPage_notMem (cs : List Int) (rid p : PageId) :
    ∀ s : TreeState, p ∉ cs → getPage (adoptAll s cs rid) p = getPage s p := by
  induction cs with
  | nil => intro s _; simp [adoptAll]
  | cons c rest ih =>
    intro s hp
    simp only [List.mem_cons, not_or] at hp
    show getPage (adoptAll (adoptChild s c rid) rest rid) p = getPage s p
    rw [ih _ hp.2, getPage_adoptChild_ne _ _ _ _ (fun he => hp.1 he.symm)]

theorem adoptAll_parent (cs : List Int) (rid : PageId) (c : Int) :
    ∀ s : TreeState, c ∈ cs → (getPage (adoptAll s cs rid) c).parent = rid := by
  induction cs with
  | nil => intro s h; simp at h
  | cons x rest ih =>
    intro s hc
    show (getPage (adoptAll (adoptChild s x rid) rest rid) c).parent = rid
    by_cases hm : c ∈ rest
    · exact ih _ hm
    · have hx : c = x := by
        rcases List.mem_cons.mp hc with h | h
        · exact h
        · exact absurd h hm
      rw [adoptAll_getPage_notMem _ _ _ _ hm, hx, getPage_adoptChild_self]

theorem adoptAll_trace_mono (cs : List Int) (rid : PageId) (ev : Ev) :
    ∀ s : TreeState, ev ∈ s.trace → ev ∈ (adoptAll s cs rid).trace := by
  induction cs with
  | nil => intro s h; simpa [adoptAll] using h
  | cons c rest ih =>
    intro s h
    show ev ∈ (adoptAll (adoptChild s c rid) rest rid).trace
    exact ih _ (by rw [trace_adoptChild]; exact List.mem_append_left _ h)

theorem adoptAll_trace_mem (cs : List Int) (rid : PageId) (c : Int) :
    ∀ s : TreeState, c ∈ cs →
      Ev.fetch c ∈ (adoptAll s cs rid).trace ∧ Ev.unpin c true ∈ (adoptAll s cs rid).trace := by
  induction cs with
  | nil => intro s h; simp at h
  | cons x rest ih =>
    intro s hc
    show _ ∧ _
    by_cases hm : c ∈ rest
    · exact ih _ hm
    · have hx : c = x := by
        rcases List.mem_cons.mp hc with h | h
        · exact h
        · exact absurd h hm
      subst hx
      constructor
      · exact adoptAll_trace_mono rest rid _ (adoptChild s c rid)
          (by rw [trace_adoptChild]; simp)
      · exact adoptAll_trace_mono rest rid _ (adoptChild s c rid)
          (by rw [trace_adoptChild]; simp)

end BPT

/-- **C6**: whenever an internal node holding exactly `max_size + 1` entries
is split via `MoveHalfTo` into a fresh node, the upper `⌈(max_size+1)/2⌉`
entries move to the new node (`copyIdx = (max_size+1)/2`, so the old node
keeps the lower `⌊(max_size+1)/2⌋`), and every moved child page's
`parent_page_id` is set to the new node's page id, the child being fetched
through the BufferPool and unpinned dirty. -/
theorem c6_internal_split_moves_upper_half
    (s : BPT.TreeState) (nodePid recipPid : BPT.PageId)
    (hne : nodePid ≠ recipPid)
    (hfull : (BPT.getPage s nodePid).entries.length = (BPT.getPage s nodePid).maxSize + 1)
    (hchild : ∀ e ∈ (BPT.getPage s nodePid).entries.drop
        (((BPT.getPage s nodePid).maxSize + 1) / 2), e.2 ≠ nodePid ∧ e.2 ≠ recipPid) :
    ((BPT.getPage (BPT.internalMoveHalfTo s nodePid recipPid) recipPid).entries
      = (BPT.getPage s nodePid).entries.drop (((BPT.getPage s nodePid).maxSize + 1) / 2))
    ∧ ((BPT.getPage (BPT.internalMoveHalfTo s nodePid recipPid) recipPid).entries.length
      = ((BPT.getPage s nodePid).maxSize + 2) / 2)
    ∧ ((BPT.getPage (BPT.internalMoveHalfTo s nodePid recipPid) nodePid).entries
      = (BPT.getPage s nodePid).entries.take (((BPT.getPage s nodePid).maxSize + 1) / 2))
    ∧ ((BPT.getPage (BPT.internalMoveHalfTo s nodePid recipPid) nodePid).entries.length
      = ((BPT.getPage s nodePid).maxSize + 1) / 2)
    ∧ (∀ e ∈ (BPT.getPage s nodePid).entries.drop (((BPT.getPage s nodePid).maxSize + 1) / 2),
        (BPT.getPage (BPT.internalMoveHalfTo s nodePid recipPid) e.2).parent = recipPid
        ∧ BPT.Ev.fetch e.2 ∈ (BPT.internalMoveHalfTo s nodePid recipPid).trace
        ∧ BPT.Ev.unpin e.2 true ∈ (BPT.internalMoveHalfTo s nodePid recipPid).trace) := by
  set node := BPT.getPage s nodePid with hnode
  set copyIdx := (node.maxSize + 1) / 2 with hcopy
  set moved := node.entries.drop copyIdx with hmoved
  have hrec : recipPid ∉ moved.map Prod.snd := by
    intro hmem
    rcases List.mem_map.mp hmem with ⟨e, he, hee⟩
    exact (hchild e he).2 hee
  have hnod : nodePid ∉ moved.map Prod.snd := by
    intro hmem
    rcases List.mem_map.mp hmem with ⟨e, he, hee⟩
    exact (hchild e he).1 hee
  have hstep : BPT.internalMoveHalfTo s nodePid recipPid =
      BPT.adoptAll
        (BPT.setPage (BPT.setPage s recipPid
          { BPT.getPage s recipPid with entries := moved }) nodePid
          { node with entries := node.entries.take copyIdx })
        (moved.map Prod.snd) recipPid := rfl
  have hgr : BPT.getPage (BPT.internalMoveHalfTo s nodePid recipPid) recipPid
      = { BPT.getPage s recipPid with entries := moved } := by
    rw [hstep, BPT.adoptAll_getPage_notMem _ _ _ _ hrec,
      BPT.getPage_setPage_ne _ _ _ _ hne, BPT.getPage_setPage_self]
  have hgn : BPT.getPage (BPT.internalMoveHalfTo s nodePid recipPid) nodePid
      = { node with entries := node.entries.take copyIdx } := by
    rw [hstep, BPT.adoptAll_getPage_notMem _ _ _ _ hnod, BPT.getPage_setPage_self]
  refine ⟨by rw [hgr], ?_, by rw [hgn], ?_, ?_⟩
  · rw [hgr]
    show moved.length = _
    rw [hmoved]
    simp only [List.length_drop]
    omega
  · rw [hgn]
    simp only [List.length_take]
    omega
  · intro e he
    have hmem : e.2 ∈ moved.map Prod.snd := List.mem_map_of_mem Prod.snd he
    refine ⟨?_, ?_, ?_⟩
    · rw [hstep]
      exact BPT.adoptAll_parent _ _ _ _ hmem
    · rw [hstep]
      exact (BPT.adoptAll_trace_mem _ _ _ _ hmem).1
    · rw [hstep]
      exact (BPT.adoptAll_trace_mem _ _ _ _ hmem).2

/-- Witness for C6: splitting internal page 10 (`max_size = 3`, overflowed to
4 children) into fresh page 11 moves the upper 2 entries, keeps the lower 2,
and re-parents children 23 and 24 to page 11 with the matching BufferPool
traffic. -/
theorem c6_internal_split_moves_upper_half_witness :
    (BPT.getPage (BPT.internalMoveHalfTo BPT.c6Demo 10 11) 11).entries = [(5, 23), (7, 24)]
    ∧ (BPT.getPage (BPT.internalMoveHalfTo BPT.c6Demo 10 11) 10).entries = [(0, 21), (3, 22)]
    ∧ (BPT.getPage (BPT.internalMoveHalfTo BPT.c6Demo 10 11) 23).parent = 11
    ∧ (BPT.getPage (BPT.internalMoveHalfTo BPT.c6Demo 10 11) 24).parent = 11
    ∧ BPT.Ev.fetch 23 ∈ (BPT.internalMoveHalfTo BPT.c6Demo 10 11).trace
    ∧ BPT.Ev.unpin 23 true ∈ (BPT.internalMoveHalfTo BPT.c6Demo 10 11).trace := by
  have h := c6_internal_split_moves_upper_half BPT.c6Demo 10 11 (by decide) rfl (by decide)
  exact ⟨h.1, h.2.2.1, (h.2.2.2.2 (5, 23) (by decide)).1, (h.2.2.2.2 (7, 24) (by decide)).1,
    (h.2.2.2.2 (5, 23) (by decide)).2.1, (h.2.2.2.2 (5, 23) (by decide)).2.2⟩

namespace LRU

theorem victim_eq_none (l : State) : victim l = none ↔ l = [] := by
  unfold victim
  cases l with
  | nil => simp
  | cons a t => simp [List.getLast?_cons]

end LRU

theorem foldlPreserve {α β : Type} (P : β → Prop) (g : β → α → β)
    (hg : ∀ b a, P b → P (g b a)) : ∀ (l : List α) (b : β), P b → P (l.foldl g b) := by
  intro l
  induction l with
  | nil => intro b hb; exact hb
  | cons a t ih => intro b hb; exact ih (g b a) (hg b a hb)

namespace BPM

theorem frameAt_setFrame_self (s : State) (f : Nat) (fr : Frame) (h : f < s.frames.length) :
    frameAt (setFrame s f fr) f = fr := by
  simp [frameAt, setFrame, List.getD_eq_getElem?_getD, List.getElem?_set_self, h]

theorem setFrame_setFrame (s : State) (f : Nat) (a b : Frame) :
    setFrame (setFrame s f a) f b = setFrame s f b := by
  simp [setFrame, List.set_set]

theorem frameAt_oor (s : State) (f : Nat) (h : s.frames.length ≤ f) :
    frameAt s f = emptyFrame := by
  simp [frameAt, List.getD_eq_getElem?_getD, List.getElem?_eq_none h]

theorem unpinPage_resident_eq (s : State) (pid : Int) (d : Bool) (f : Nat)
    (hf : assocFind s.pageTable pid = some f) :
    unpinPage s pid d =
      (setFrame
        { s with replacer :=
            if (frameAt s f).pinCount = 1 then LRU.unpin s.replacer f
            else s.replacer }
        f
        { frameAt s f with
          pinCount :=
            if 0 < (frameAt s f).pinCount then (frameAt s f).pinCount - 1
            else (frameAt s f).pinCount,
          isDirty := (frameAt s f).isDirty || d }, true) := by
  simp only [unpinPage, hf]
  by_cases hlen : f < s.frames.length
  · by_cases hp : 0 < (frameAt s f).pinCount
    · by_cases h1 : (frameAt s f).pinCount - 1 = 0
      · have h2 : (frameAt s f).pinCount = 1 := by omega
        rw [if_pos hp, if_pos h1, if_pos h2, if_pos hp]
        simp [setFrame, frameAt, List.set_set,
          List.getD_eq_getElem?_getD, List.getElem?_set_self, hlen]
      · have h2 : ¬ (frameAt s f).pinCount = 1 := by omega
        rw [if_pos hp, if_neg h1, if_neg h2, if_pos hp]
        simp [setFrame, frameAt, List.set_set,
          List.getD_eq_getElem?_getD, List.getElem?_set_self, hlen]
    · have h2 : ¬ (frameAt s f).pinCount = 1 := by omega
      rw [if_neg hp, if_neg h2, if_neg hp]
  · have hle : s.frames.length ≤ f := by omega
    have hfr := frameAt_oor s f hle
    have hp : ¬ 0 < (frameAt s f).pinCount := by
      rw [hfr]; simp [emptyFrame]
    have h2 : ¬ (frameAt s f).pinCount = 1 := by
      rw [hfr]; simp [emptyFrame]
    rw [if_neg hp, if_neg h2, if_neg hp]

theorem pinNonneg_set (l : List Frame) (f : Nat) (fr : Frame)
    (h : ∀ x ∈ l, 0 ≤ x.pinCount) (hfr : 0 ≤ fr.pinCount) :
    ∀ x ∈ l.set f fr, 0 ≤ x.pinCount := by
  intro x hx
  rcases List.mem_or_eq_of_mem_set hx with h1 | h1
  · exact h x h1
  · rw [h1]; exact hfr

theorem pinNonneg_frameAt (s : State) (h : pinNonneg s) (f : Nat) :
    0 ≤ (frameAt s f).pinCount := by
  by_cases hf : f < s.frames.length
  · have : frameAt s f = s.frames[f] := by
      simp [frameAt, List.getD_eq_getElem?_getD, List.getElem?_eq_getElem hf]
    rw [this]
    exact h _ (List.getElem_mem hf)
  · rw [frameAt_oor s f (by omega)]
    norm_num [emptyFrame]

theorem fetchPage_pinNonneg (s : State) (pid : Int) (h : pinNonneg s) :
    pinNonneg (fetchPage s pid).1 := by
  unfold fetchPage
  cases hl : assocFind s.pageTable pid with
  | some f =>
    intro fr hm
    refine pinNonneg_set s.frames f _ h ?_ fr hm
    show 0 ≤ (frameAt { s with replacer := LRU.pin s.replacer f } f).pinCount + 1
    have he : frameAt { s with replacer := LRU.pin s.replacer f } f = frameAt s f := rfl
    rw [he]
    have := pinNonneg_frameAt s h f
    omega
  | none =>
    unfold findReplacementFrame
    cases hg : s.freeList.getLast? with
    | some f =>
      intro fr hm
      exact pinNonneg_set s.frames f _ h (by norm_num) fr hm
    | none =>
      cases hv : LRU.victim s.replacer with
      | none => exact h
      | some p =>
        intro fr hm
        by_cases hd : (frameAt { s with replacer := p.2 } p.1).isDirty
        · simp only [hd, if_pos] at hm
          exact pinNonneg_set s.frames p.1 _ h (by norm_num) fr hm
        · simp only [hd] at hm
          exact pinNonneg_set s.frames p.1 _ h (by norm_num) fr hm

theorem newPage_pinNonneg (s : State) (h : pinNonneg s) :
    pinNonneg (newPage s).1 := by
  unfold newPage findReplacementFrame
  cases hg : s.freeList.getLast? with
  | some f =>
    intro fr hm
    exact pinNonneg_set s.frames f _ h (by norm_num) fr hm
  | none =>
    cases hv : LRU.victim s.replacer with
    | none => exact h
    | some p =>
      intro fr hm
      by_cases hd : (frameAt { s with replacer := p.2 } p.1).isDirty
      · simp only [hd, if_pos] at hm
        exact pinNonneg_set s.frames p.1 _ h (by norm_num) fr hm
      · simp only [hd] at hm
        exact pinNonneg_set s.frames p.1 _ h (by norm_num) fr hm

theorem unpinPage_pinNonneg (s : State) (pid : Int) (d : Bool) (h : pinNonneg s) :
    pinNonneg (unpinPage s pid d).1 := by
  cases hl : assocFind s.pageTable pid with
  | none => simp only [unpinPage, hl]; exact h
  | some f =>
    rw [unpinPage_resident_eq s pid d f hl]
    intro fr hm
    refine pinNonneg_set s.frames f _ h ?_ fr hm
    dsimp only
    have := pinNonneg_frameAt s h f
    by_cases hp : 0 < (frameAt s f).pinCount
    · rw [if_pos hp]; omega
    · rw [if_neg hp]; omega

theorem flushPage_pinNonneg (s : State) (pid : Int) (h : pinNonneg s) :
    pinNonneg (flushPage s pid).1 := by
  cases hl : assocFind s.pageTable pid with
  | none => simp only [flushPage, hl]; exact h
  | some f =>
    simp only [flushPage, hl]
    by_cases hpid : pid = -1
    · rw [if_pos hpid]; exact h
    · rw [if_neg hpid]
      intro fr hm
      refine pinNonneg_set s.frames f _ h ?_ fr hm
      exact pinNonneg_frameAt s h f

theorem deletePage_pinNonneg (s : State) (pid : Int) (h : pinNonneg s) :
    pinNonneg (deletePage s pid).1 := by
  by_cases hpid : pid = -1
  · simp only [deletePage, if_pos hpid]; exact h
  · cases hl : assocFind s.pageTable pid with
    | none => simp only [deletePage, if_neg hpid, hl]; exact h
    | some f =>
      simp only [deletePage, if_neg hpid, hl]
      by_cases hp : 0 < (frameAt s f).pinCount
      · rw [if_pos hp]; exact h
      · rw [if_neg hp]
        intro fr hm
        by_cases hd : (frameAt s f).isDirty
        · simp only [hd, if_pos] at hm
          exact pinNonneg_set s.frames f _ h (by norm_num [emptyFrame]) fr hm
        · simp only [hd] at hm
          exact pinNonneg_set s.frames f _ h (by norm_num [emptyFrame]) fr hm

theorem flushAll_pinNonneg (s : State) (h : pinNonneg s) :
    pinNonneg (flushAll s) := by
  unfold flushAll
  exact foldlPreserve pinNonneg _ (fun st fid hst => flushPage_pinNonneg st _ hst) _ s h

theorem step_pinNonneg (s : State) (op : Op) (h : pinNonneg s) :
    pinNonneg (step s op) := by
  cases op with
  | fetch pid => exact fetchPage_pinNonneg s pid h
  | newP => exact newPage_pinNonneg s h
  | unpin pid d => exact unpinPage_pinNonneg s pid d h
  | flush pid => exact flushPage_pinNonneg s pid h
  | del pid => exact deletePage_pinNonneg s pid h
  | flushAllOp => exact flushAll_pinNonneg s h

theorem run_pinNonneg (n : Nat) (ops : List Op) : pinNonneg (run n ops) := by
  unfold run
  refine foldlPreserve pinNonneg step (fun b a hb => step_pinNonneg b a hb) ops (init n) ?_
  intro fr hm
  rw [List.eq_of_mem_replicate hm]
  norm_num [emptyFrame]

/-- The shared replacement block fails exactly on an empty free list with an
empty replacer, and in that case it leaves the state untouched. -/
theorem findReplacementFrame_none (s : State) :
    ((findReplacementFrame s).2 = none ↔ s.freeList = [] ∧ s.replacer = [])
    ∧ ((findReplacementFrame s).2 = none → (findReplacementFrame s).1 = s) := by
  unfold findReplacementFrame
  cases hl : s.freeList.getLast? with
  | some f =>
    have : s.freeList ≠ [] := by intro h; rw [h] at hl; simp at hl
    simp [this]
  | none =>
    have hfl : s.freeList = [] := by
      cases hfll : s.freeList with
      | nil => rfl
      | cons a t => rw [hfll] at hl; simp [List.getLast?_cons] at hl
    cases hv : LRU.victim s.replacer with
    | none =>
      have := (LRU.victim_eq_none s.replacer).mp hv
      simp [hfl, this]
    | some p =>
      have : s.replacer ≠ [] := by
        intro h; rw [h] at hv; simp [LRU.victim] at hv
      simp [hfl, this]

end BPM

/-- **C5**: for every BufferPool state, `FetchPage` of a non-resident page id
and `NewPage` return none exactly when the free list is empty and
`replacer.Victim` yields no frame (the replacer is empty); and when they
return none the whole pool state — page table, frames, free list — is left
unchanged. -/
theorem c5_fetch_new_fail_iff_all_pinned (s : BPM.State) (pid : Int)
    (h : assocFind s.pageTable pid = none) :
    ((BPM.fetchPage s pid).2 = none ↔ s.freeList = [] ∧ s.replacer = [])
    ∧ ((BPM.fetchPage s pid).2 = none → (BPM.fetchPage s pid).1 = s)
    ∧ ((BPM.newPage s).2 = none ↔ s.freeList = [] ∧ s.replacer = [])
    ∧ ((BPM.newPage s).2 = none → (BPM.newPage s).1 = s) := by
  have hfr := BPM.findReplacementFrame_none s
  unfold BPM.fetchPage BPM.newPage
  rw [h]
  cases hfrf : BPM.findReplacementFrame s with
  | mk s1 r =>
  rw [hfrf] at hfr
  cases r with
  | none =>
    simp at hfr
    simp [hfr.1.1, hfr.1.2, hfr.2]
  | some f =>
    simp at hfr
    simp
    intro hfl hrep
    exact hfr hfl hrep

/-- Witness for C5: a pool whose free list and replacer are both empty (every
frame pinned — here a zero-frame pool) rejects `FetchPage(7)` and `NewPage`
and is left unchanged. -/
theorem c5_fetch_new_fail_iff_all_pinned_witness :
    (BPM.fetchPage (BPM.init 0) 7).2 = none
    ∧ (BPM.fetchPage (BPM.init 0) 7).1 = BPM.init 0
    ∧ (BPM.newPage (BPM.init 0)).2 = none
    ∧ (BPM.newPage (BPM.init 0)).1 = BPM.init 0 := by
  have h := c5_fetch_new_fail_iff_all_pinned (BPM.init 0) 7 rfl
  exact ⟨h.1.mpr ⟨rfl, rfl⟩, h.2.1 (h.1.mpr ⟨rfl, rfl⟩), h.2.2.1.mpr ⟨rfl, rfl⟩,
    h.2.2.2 (h.2.2.1.mpr ⟨rfl, rfl⟩)⟩

/-- **C7**: `UnpinPage(p, d)` returns false and changes nothing when `p` is
not resident; otherwise it returns true, decrements the frame's pin count
only if it was positive, calls `replacer.Unpin` on the frame exactly when the
count reaches 0 (i.e. was 1), and ORs `d` into the dirty bit — so an
already-true dirty bit is never cleared. -/
theorem c7_unpin_page_semantics (s : BPM.State) (pid : Int) (d : Bool) :
    (assocFind s.pageTable pid = none → BPM.unpinPage s pid d = (s, false))
    ∧ (∀ f, assocFind s.pageTable pid = some f →
        BPM.unpinPage s pid d =
          (BPM.setFrame
            { s with replacer :=
                if (BPM.frameAt s f).pinCount = 1 then LRU.unpin s.replacer f
                else s.replacer }
            f
            { BPM.frameAt s f with
              pinCount :=
                if 0 < (BPM.frameAt s f).pinCount then (BPM.frameAt s f).pinCount - 1
                else (BPM.frameAt s f).pinCount,
              isDirty := (BPM.frameAt s f).isDirty || d }, true))
    ∧ (∀ f, assocFind s.pageTable pid = some f → (BPM.frameAt s f).isDirty = true →
        (BPM.frameAt (BPM.unpinPage s pid d).1 f).isDirty = true) := by
  have hmain := fun f hf => BPM.unpinPage_resident_eq s pid d f hf
  refine ⟨?_, hmain, ?_⟩
  · intro h
    simp [BPM.unpinPage, h]
  · intro f hf hd
    rw [hmain f hf]
    by_cases hlen : f < s.frames.length
    · rw [show (BPM.setFrame
          { s with replacer :=
              if (BPM.frameAt s f).pinCount = 1 then LRU.unpin s.replacer f
              else s.replacer } f
          { BPM.frameAt s f with
            pinCount :=
              if 0 < (BPM.frameAt s f).pinCount then (BPM.frameAt s f).pinCount - 1
              else (BPM.frameAt s f).pinCount,
            isDirty := (BPM.frameAt s f).isDirty || d }, true).1
        = BPM.setFrame
          { s with replacer :=
              if (BPM.frameAt s f).pinCount = 1 then LRU.unpin s.replacer f
              else s.replacer } f
          { BPM.frameAt s f with
            pinCount :=
              if 0 < (BPM.frameAt s f).pinCount then (BPM.frameAt s f).pinCount - 1
              else (BPM.frameAt s f).pinCount,
            isDirty := (BPM.frameAt s f).isDirty || d } from rfl]
      rw [BPM.frameAt_setFrame_self _ f _ (by simpa using hlen)]
      simp [hd]
    · have hle : s.frames.length ≤ f := by omega
      rw [BPM.frameAt_oor s f hle] at hd
      simp [BPM.emptyFrame] at hd

/-- Witness for C7: in a 2-frame pool with page 5 resident in frame 1 at pin
count 1, `UnpinPage(5, true)` succeeds, drops the pin count to 0, makes
frame 1 an eviction candidate, and sets the dirty bit; `UnpinPage(9, true)`
on the same pool fails and changes nothing. -/
theorem c7_unpin_page_semantics_witness :
    (BPM.unpinPage BPM.demoPinned 5 true).2 = true
    ∧ BPM.frameAt (BPM.unpinPage BPM.demoPinned 5 true).1 1 =
        { pageId := 5, pinCount := 0, isDirty := true, data := 0 }
    ∧ (BPM.unpinPage BPM.demoPinned 5 true).1.replacer = [1]
    ∧ BPM.unpinPage BPM.demoPinned 9 true = (BPM.demoPinned, false) := by
  have h := (c7_unpin_page_semantics BPM.demoPinned 5 true).2.1 1 rfl
  have h9 := (c7_unpin_page_semantics BPM.demoPinned 9 true).1 rfl
  rw [h]
  exact ⟨by decide, by decide, by decide, h9⟩

/-- **C8**: `DeletePage(p)` returns true unchanged when `p` is INVALID or not
resident; returns false unchanged when the resident frame is pinned; and
otherwise flushes the frame if dirty, deallocates `p`, removes `p` from the
page table and the frame from the replacer, resets the frame, pushes it on
the free list, and returns true. -/
theorem c8_delete_page_semantics (s : BPM.State) (pid : Int) :
    ((pid = -1 ∨ assocFind s.pageTable pid = none) → BPM.deletePage s pid = (s, true))
    ∧ (∀ f, pid ≠ -1 → assocFind s.pageTable pid = some f →
        0 < (BPM.frameAt s f).pinCount → BPM.deletePage s pid = (s, false))
    ∧ (∀ f, pid ≠ -1 → assocFind s.pageTable pid = some f →
        ¬ 0 < (BPM.frameAt s f).pinCount →
        BPM.deletePage s pid =
          ({ BPM.setFrame
              { s with
                pageTable := assocDrop s.pageTable pid,
                disk :=
                  if (BPM.frameAt s f).isDirty then
                    assocPut s.disk (BPM.frameAt s f).pageId (BPM.frameAt s f).data
                  else s.disk,
                dealloc := s.dealloc ++ [pid],
                replacer := LRU.pin s.replacer f }
              f BPM.emptyFrame
            with freeList := s.freeList ++ [f] }, true)) := by
  refine ⟨?_, ?_, ?_⟩
  · intro h
    rcases h with h | h
    · simp [BPM.deletePage, h]
    · by_cases hpid : pid = -1
      · simp [BPM.deletePage, hpid]
      · simp [BPM.deletePage, hpid, h]
  · intro f hpid hf hpin
    simp [BPM.deletePage, hpid, hf, hpin]
  · intro f hpid hf hpin
    simp only [BPM.deletePage, if_neg hpid, hf]
    rw [if_neg hpin]
    by_cases hdirty : (BPM.frameAt s f).isDirty
    · simp [hdirty, BPM.setFrame]
    · simp [hdirty, BPM.setFrame]

/-- Witness for C8: deleting an unknown page returns true and changes
nothing; deleting pinned page 5 returns false and changes nothing; after
unpinning, deleting page 5 succeeds, removes it from the page table, resets
frame 1 and pushes it on the free list. -/
theorem c8_delete_page_semantics_witness :
    BPM.deletePage (BPM.init 2) 5 = (BPM.init 2, true)
    ∧ BPM.deletePage BPM.demoPinned 5 = (BPM.demoPinned, false)
    ∧ (BPM.deletePage BPM.demoUnpinned 5).2 = true
    ∧ assocFind (BPM.deletePage BPM.demoUnpinned 5).1.pageTable 5 = none
    ∧ (BPM.deletePage BPM.demoUnpinned 5).1.freeList = [0, 1]
    ∧ BPM.frameAt (BPM.deletePage BPM.demoUnpinned 5).1 1 = BPM.emptyFrame
    ∧ (BPM.deletePage BPM.demoUnpinned 5).1.replacer = [] := by
  have h1 := (c8_delete_page_semantics (BPM.init 2) 5).1 (Or.inr rfl)
  have h2 := (c8_delete_page_semantics BPM.demoPinned 5).2.1 1 (by decide) rfl (by decide)
  have h3 := (c8_delete_page_semantics BPM.demoUnpinned 5).2.2 1 (by decide) rfl (by decide)
  rw [h3]
  exact ⟨h1, h2, by decide, by decide, by decide, by decide, by decide⟩

/-- **C9**: in every reachable BufferPool state every frame's pin count is
non-negative; in particular `UnpinPage` on a resident page whose pin count is
already 0 leaves the count at 0, still returns true, and still ORs the dirty
flag into the frame. -/
theorem c9_pin_count_never_negative (n : Nat) (ops : List BPM.Op) :
    (∀ fr ∈ (BPM.run n ops).frames, 0 ≤ fr.pinCount)
    ∧ (∀ s : BPM.State, ∀ pid : Int, ∀ f : Nat, ∀ d : Bool,
        assocFind s.pageTable pid = some f → (BPM.frameAt s f).pinCount = 0 →
          (BPM.unpinPage s pid d).2 = true
          ∧ (BPM.frameAt (BPM.unpinPage s pid d).1 f).pinCount = 0
          ∧ (f < s.frames.length →
              (BPM.frameAt (BPM.unpinPage s pid d).1 f).isDirty
                = ((BPM.frameAt s f).isDirty || d))) := by
  refine ⟨BPM.run_pinNonneg n ops, ?_⟩
  intro s pid f d hf h0
  rw [BPM.unpinPage_resident_eq s pid d f hf]
  have hp : ¬ 0 < (BPM.frameAt s f).pinCount := by omega
  refine ⟨rfl, ?_, ?_⟩
  · by_cases hlen : f < s.frames.length
    · rw [show ((BPM.setFrame
          { s with replacer :=
              if (BPM.frameAt s f).pinCount = 1 then LRU.unpin s.replacer f
              else s.replacer } f
          { BPM.frameAt s f with
            pinCount :=
              if 0 < (BPM.frameAt s f).pinCount then (BPM.frameAt s f).pinCount - 1
              else (BPM.frameAt s f).pinCount,
            isDirty := (BPM.frameAt s f).isDirty || d }, true)).1
        = BPM.setFrame
          { s with replacer :=
              if (BPM.frameAt s f).pinCount = 1 then LRU.unpin s.replacer f
              else s.replacer } f
          { BPM.frameAt s f with
            pinCount :=
              if 0 < (BPM.frameAt s f).pinCount then (BPM.frameAt s f).pinCount - 1
              else (BPM.frameAt s f).pinCount,
            isDirty := (BPM.frameAt s f).isDirty || d } from rfl,
        BPM.frameAt_setFrame_self _ f _ (by simpa using hlen)]
      dsimp only
      rw [if_neg hp]
      exact h0
    · have hle : s.frames.length ≤ f := by omega
      rw [BPM.frameAt_oor _ f (by simpa [BPM.setFrame] using hle)]
      rfl
  · intro hlen
    rw [show ((BPM.setFrame
        { s with replacer :=
            if (BPM.frameAt s f).pinCount = 1 then LRU.unpin s.replacer f
            else s.replacer } f
        { BPM.frameAt s f with
          pinCount :=
            if 0 < (BPM.frameAt s f).pinCount then (BPM.frameAt s f).pinCount - 1
            else (BPM.frameAt s f).pinCount,
          isDirty := (BPM.frameAt s f).isDirty || d }, true)).1
      = BPM.setFrame
        { s with replacer :=
            if (BPM.frameAt s f).pinCount = 1 then LRU.unpin s.replacer f
            else s.replacer } f
        { BPM.frameAt s f with
          pinCount :=
            if 0 < (BPM.frameAt s f).pinCount then (BPM.frameAt s f).pinCount - 1
            else (BPM.frameAt s f).pinCount,
          isDirty := (BPM.frameAt s f).isDirty || d } from rfl,
      BPM.frameAt_setFrame_self _ f _ (by simpa using hlen)]

/-- Witness for C9: a concrete run keeps all pin counts non-negative, and an
`UnpinPage(5, true)` on a pool whose page-5 frame already has pin count 0
returns true, leaves the count at 0, and sets the dirty bit. -/
theorem c9_pin_count_never_negative_witness :
    (∀ fr ∈ (BPM.run 2 [BPM.Op.fetch 5, BPM.Op.unpin 5 true]).frames, 0 ≤ fr.pinCount)
    ∧ (BPM.unpinPage BPM.demoUnpinned 5 true).2 = true
    ∧ (BPM.frameAt (BPM.unpinPage BPM.demoUnpinned 5 true).1 1).pinCount = 0
    ∧ (BPM.frameAt (BPM.unpinPage BPM.demoUnpinned 5 true).1 1).isDirty = true := by
  have h := c9_pin_count_never_negative 2 [BPM.Op.fetch 5, BPM.Op.unpin 5 true]
  have h2 := h.2 BPM.demoUnpinned 5 1 true (by decide) (by decide)
  exact ⟨h.1, h2.1, h2.2.1, by rw [h2.2.2 (by decide)]; decide⟩

theorem assocFind_mem_keys {α : Type} (l : List (Int × α)) (p : Int) (v : α)
    (h : assocFind l p = some v) : p ∈ l.map Prod.fst := by
  induction l with
  | nil => simp [assocFind] at h
  | cons e rest ih =>
    by_cases he : e.1 = p
    · simp [he]
    · simp only [assocFind, if_neg he] at h
      simp [ih h]

theorem assocDrop_sublist {α : Type} (l : List (Int × α)) (p : Int) :
    (assocDrop l p).Sublist l := by
  induction l with
  | nil => simp [assocDrop]
  | cons e rest ih =>
    by_cases he : e.1 = p
    · simp only [assocDrop, if_pos he]
      exact List.sublist_cons_self e rest
    · simp only [assocDrop, if_neg he]
      exact ih.cons₂ e

theorem assocFind_drop_ne {α : Type} (l : List (Int × α)) (p q : Int) (h : p ≠ q) :
    assocFind (assocDrop l q) p = assocFind l p := by
  induction l with
  | nil => simp [assocDrop]
  | cons e rest ih =>
    obtain ⟨a, b⟩ := e
    by_cases he : a = q
    · subst he
      simp only [assocDrop, if_pos rfl]
      simp [assocFind, show ¬a = p from fun hh => h hh.symm]
    · by_cases hp : a = p
      · subst hp
        simp [assocDrop, he, assocFind]
      · simp [assocDrop, he, assocFind, hp, ih]

theorem assocFind_drop_self {α : Type} (l : List (Int × α)) (p : Int)
    (h : (l.map Prod.fst).Nodup) : assocFind (assocDrop l p) p = none := by
  induction l with
  | nil => simp [assocDrop, assocFind]
  | cons e rest ih =>
    simp only [List.map_cons, List.nodup_cons] at h
    by_cases he : e.1 = p
    · simp only [assocDrop, if_pos he]
      cases hf : assocFind rest p with
      | none => rfl
      | some v =>
        exact absurd (assocFind_mem_keys rest p v hf) (he ▸ h.1)
    · simp only [assocDrop, if_neg he, assocFind, if_neg he]
      exact ih h.2

theorem mem_keys_assocPut {α : Type} (l : List (Int × α)) (p q : Int) (v : α) :
    q ∈ (assocPut l p v).map Prod.fst ↔ q = p ∨ q ∈ l.map Prod.fst := by
  induction l with
  | nil => simp [assocPut, eq_comm]
  | cons e rest ih =>
    by_cases he : e.1 = p
    · simp [assocPut, he, eq_comm]
    · simp only [assocPut, if_neg he, List.map_cons, List.mem_cons, ih]
      tauto

theorem assocPut_keys_nodup {α : Type} (l : List (Int × α)) (p : Int) (v : α)
    (h : (l.map Prod.fst).Nodup) : ((assocPut l p v).map Prod.fst).Nodup := by
  induction l with
  | nil => simp [assocPut]
  | cons e rest ih =>
    simp only [List.map_cons, List.nodup_cons] at h
    by_cases he : e.1 = p
    · simp only [assocPut, if_pos he, List.map_cons, List.nodup_cons]
      exact ⟨he ▸ h.1, h.2⟩
    · simp only [assocPut, if_neg he, List.map_cons, List.nodup_cons]
      refine ⟨?_, ih h.2⟩
      rw [mem_keys_assocPut]
      push_neg
      exact ⟨he, h.1⟩

theorem assocDrop_keys_nodup {α : Type} (l : List (Int × α)) (p : Int)
    (h : (l.map Prod.fst).Nodup) : ((assocDrop l p).map Prod.fst).Nodup :=
  (((assocDrop_sublist l p).map Prod.fst).nodup h)

theorem assocFind_put_cases {α : Type} (l : List (Int × α)) (p q : Int) (v w : α)
    (h : assocFind (assocPut l p v) q = some w) :
    (q = p ∧ w = v) ∨ (q ≠ p ∧ assocFind l q = some w) := by
  by_cases hq : q = p
  · subst hq
    rw [assocFind_put_self] at h
    exact Or.inl ⟨rfl, (Option.some_inj.mp h).symm⟩
  · rw [assocFind_put_ne _ _ _ _ (fun hh => hq hh.symm)] at h
    exact Or.inr ⟨hq, h⟩

theorem getLast?_mem_self {α : Type} (l : List α) (a : α) (h : l.getLast? = some a) :
    a ∈ l := by
  have hs := List.dropLast_append_getLast? a h
  rw [← hs]
  simp

theorem getLast?_notMem_dropLast {α : Type} (l : List α) (a : α)
    (hnd : l.Nodup) (h : l.getLast? = some a) : a ∉ l.dropLast := by
  have hs := List.dropLast_append_getLast? a h
  rw [← hs] at hnd
  have hd := List.disjoint_of_nodup_append hnd
  intro hmem
  exact hd hmem (by simp)

namespace LRU

theorem unpin_nodup (l : State) (f : Nat) (h : l.Nodup) : (unpin l f).Nodup := by
  unfold unpin
  by_cases hm : f ∈ l
  · simp [hm, h]
  · simp [hm, h]

theorem mem_unpin (l : State) (f g : Nat) : g ∈ unpin l f ↔ g = f ∨ g ∈ l := by
  unfold unpin
  by_cases hm : f ∈ l
  · simp only [if_pos hm]
    constructor
    · exact Or.inr
    · rintro (rfl | hg)
      · exact hm
      · exact hg
  · simp [if_neg hm]

theorem victim_some (l : State) (f : Nat) (rep : State) (h : victim l = some (f, rep)) :
    l.getLast? = some f ∧ rep = l.dropLast ∧ f ∈ l := by
  unfold victim at h
  cases hg : l.getLast? with
  | none => rw [hg] at h; simp at h
  | some a =>
    rw [hg] at h
    simp only [Option.some_inj, Prod.mk.injEq] at h
    obtain ⟨h1, h2⟩ := h
    subst h1
    exact ⟨rfl, h2.symm, getLast?_mem_self l a hg⟩

end LRU

namespace BPM

theorem frameAt_setFrame_ne (s : State) (f g : Nat) (fr : Frame) (h : g ≠ f) :
    frameAt (setFrame s f fr) g = frameAt s g := by
  simp [frameAt, setFrame, List.getD_eq_getElem?_getD,
    List.getElem?_set_ne (show f ≠ g from fun hh => h hh.symm)]

theorem length_setFrame (s : State) (f : Nat) (fr : Frame) :
    (setFrame s f fr).frames.length = s.frames.length := by
  simp [setFrame]

theorem setFrame_oor (s : State) (f : Nat) (fr : Frame) (h : s.frames.length ≤ f) :
    setFrame s f fr = s := by
  simp [setFrame, List.set_eq_of_length_le h]

theorem frameAt_setFrame_pageId (s : State) (f g : Nat) (fr : Frame)
    (hpg : fr.pageId = (frameAt s f).pageId) :
    (frameAt (setFrame s f fr) g).pageId = (frameAt s g).pageId := by
  by_cases hg : g = f
  · subst hg
    by_cases hlen : g < s.frames.length
    · rw [frameAt_setFrame_self s g fr hlen, hpg]
    · rw [setFrame_oor s g fr (by omega)]
  · rw [frameAt_setFrame_ne s f g fr hg]

theorem poolInv_of_eq (s t : State) (hfr : t.frames = s.frames)
    (hpt : t.pageTable = s.pageTable) (hfl : t.freeList = s.freeList)
    (hr : t.replacer = s.replacer) (h : PoolInv s) : PoolInv t := by
  have hfa : ∀ g, frameAt t g = frameAt s g := by
    intro g; simp [frameAt, hfr]
  constructor
  · intro f hf
    rw [hfa]
    exact h.freeReset f (by rw [← hfl]; exact hf)
  · intro p f hpf
    rw [hfl]
    exact h.tableNotFree p f (by rw [← hpt]; exact hpf)
  · intro f hf
    rw [hfl]
    exact h.replNotFree f (by rw [← hr]; exact hf)
  · rw [hr]; exact h.replNodup
  · rw [hfl]; exact h.freeNodup
  · intro f hf
    rw [hfr]
    exact h.freeLt f (by rw [← hfl]; exact hf)
  · intro p f hpf
    rw [hfa]
    exact h.tablePageId p f (by rw [← hpt]; exact hpf)
  · intro f hf
    rw [hfr]
    exact h.replLt f (by rw [← hr]; exact hf)
  · rw [hpt]; exact h.keysNodup

end BPM

namespace BPM

theorem poolInv_install_free (s : State) (pid dv n0 : Int) (f : Nat)
    (h : PoolInv s) (hg : s.freeList.getLast? = some f) :
    PoolInv (setFrame
      { s with freeList := s.freeList.dropLast,
               pageTable := assocPut (assocDrop s.pageTable (frameAt s f).pageId) pid f,
               replacer := LRU.pin s.replacer f, nextPid := n0 }
      f { pageId := pid, pinCount := 1, isDirty := false, data := dv }) := by
  have hfmem : f ∈ s.freeList := getLast?_mem_self _ f hg
  have hfnd : f ∉ s.freeList.dropLast := getLast?_notMem_dropLast _ f h.freeNodup hg
  have hflen : f < s.frames.length := h.freeLt f hfmem
  have hempty : frameAt s f = emptyFrame := h.freeReset f hfmem
  have holdpid : (frameAt s f).pageId = -1 := by rw [hempty]; rfl
  have hsub : s.freeList.dropLast ⊆ s.freeList := (List.dropLast_sublist _).subset
  constructor
  · intro g hgm
    have hgf : g ≠ f := fun he => hfnd (he ▸ hgm)
    rw [frameAt_setFrame_ne _ f g _ hgf]
    exact h.freeReset g (hsub hgm)
  · intro p f2 hfind
    rcases assocFind_put_cases _ _ _ _ _ hfind with ⟨rfl, hp2⟩ | ⟨hnep, hfind2⟩
    · rw [hp2]; exact hfnd
    · by_cases hp : p = (frameAt s f).pageId
      · rw [hp, assocFind_drop_self _ _ h.keysNodup] at hfind2
        exact absurd hfind2 (by simp)
      · rw [assocFind_drop_ne _ _ _ hp] at hfind2
        exact fun hm => h.tableNotFree p f2 hfind2 (hsub hm)
  · intro g hgm
    have : g ∈ s.replacer := List.mem_of_mem_erase hgm
    exact fun hm => h.replNotFree g this (hsub hm)
  · exact h.replNodup.erase f
  · exact (List.dropLast_sublist _).nodup h.freeNodup
  · intro g hgm
    rw [show (setFrame
        { s with freeList := s.freeList.dropLast,
                 pageTable := assocPut (assocDrop s.pageTable (frameAt s f).pageId) pid f,
                 replacer := LRU.pin s.replacer f, nextPid := n0 }
        f { pageId := pid, pinCount := 1, isDirty := false, data := dv }).frames.length
      = s.frames.length from by simp [setFrame]]
    exact h.freeLt g (hsub hgm)
  · intro p f2 hfind
    rcases assocFind_put_cases _ _ _ _ _ hfind with ⟨rfl, hp2⟩ | ⟨hnep, hfind2⟩
    · rw [hp2, frameAt_setFrame_self _ f _ (by simpa using hflen)]
    · by_cases hp : p = (frameAt s f).pageId
      · rw [hp, assocFind_drop_self _ _ h.keysNodup] at hfind2
        exact absurd hfind2 (by simp)
      · rw [assocFind_drop_ne _ _ _ hp] at hfind2
        have hf2 : f2 ≠ f := by
          intro he
          exact hp (by rw [← h.tablePageId p f2 hfind2, he])
        rw [frameAt_setFrame_ne _ f f2 _ hf2]
        exact h.tablePageId p f2 hfind2
  · intro g hgm
    have : g ∈ s.replacer := List.mem_of_mem_erase hgm
    rw [show (setFrame
        { s with freeList := s.freeList.dropLast,
                 pageTable := assocPut (assocDrop s.pageTable (frameAt s f).pageId) pid f,
                 replacer := LRU.pin s.replacer f, nextPid := n0 }
        f { pageId := pid, pinCount := 1, isDirty := false, data := dv }).frames.length
      = s.frames.length from by simp [setFrame]]
    exact h.replLt g this
  · exact assocPut_keys_nodup _ _ _ (assocDrop_keys_nodup _ _ h.keysNodup)

end BPM

namespace BPM

theorem poolInv_install_victim (s : State) (pid dv n0 : Int) (f : Nat) (rep : LRU.State)
    (d2 : List (Int × Int))
    (h : PoolInv s) (hfl : s.freeList = []) (hv : LRU.victim s.replacer = some (f, rep)) :
    PoolInv (setFrame
      { s with pageTable := assocPut (assocDrop s.pageTable (frameAt s f).pageId) pid f,
               replacer := LRU.pin rep f, disk := d2, nextPid := n0 }
      f { pageId := pid, pinCount := 1, isDirty := false, data := dv }) := by
  obtain ⟨hgl, hrep, hfmem⟩ := LRU.victim_some _ _ _ hv
  have hflen : f < s.frames.length := h.replLt f hfmem
  set t := setFrame
      { s with pageTable := assocPut (assocDrop s.pageTable (frameAt s f).pageId) pid f,
               replacer := LRU.pin rep f, disk := d2, nextPid := n0 }
      f { pageId := pid, pinCount := 1, isDirty := false, data := dv } with ht
  have hflt : t.freeList = [] := hfl
  constructor
  · intro g hgm
    rw [hflt] at hgm
    simp at hgm
  · intro p f2 _hfind
    rw [hflt]
    simp
  · intro g _hgm
    rw [hflt]
    simp
  · show (LRU.pin rep f).Nodup
    unfold LRU.pin
    rw [hrep]
    exact ((List.dropLast_sublist _).nodup h.replNodup).erase f
  · rw [hflt]
    exact List.nodup_nil
  · intro g hgm
    rw [hflt] at hgm
    simp at hgm
  · intro p f2 hfind
    rcases assocFind_put_cases _ _ _ _ _ hfind with ⟨rfl, hp2⟩ | ⟨hnep, hfind2⟩
    · rw [hp2, ht, frameAt_setFrame_self _ f _ (by simpa using hflen)]
    · by_cases hp : p = (frameAt s f).pageId
      · rw [hp, assocFind_drop_self _ _ h.keysNodup] at hfind2
        exact absurd hfind2 (by simp)
      · rw [assocFind_drop_ne _ _ _ hp] at hfind2
        have hf2 : f2 ≠ f := by
          intro he
          exact hp (by rw [← h.tablePageId p f2 hfind2, he])
        rw [ht, frameAt_setFrame_ne _ f f2 _ hf2]
        exact h.tablePageId p f2 hfind2
  · intro g hgm
    have hg1 : g ∈ rep := List.mem_of_mem_erase hgm
    rw [hrep] at hg1
    have hg2 : g ∈ s.replacer := (List.dropLast_sublist _).subset hg1
    rw [show t.frames.length = s.frames.length from by rw [ht]; simp [setFrame]]
    exact h.replLt g hg2
  · exact assocPut_keys_nodup _ _ _ (assocDrop_keys_nodup _ _ h.keysNodup)

end BPM

theorem getLast?_none_eq_nil {α : Type} (l : List α) (h : l.getLast? = none) : l = [] := by
  cases hl : l with
  | nil => rfl
  | cons a t => rw [hl] at h; simp [List.getLast?_cons] at h

namespace BPM

theorem poolInv_fetchPage (s : State) (pid : Int) (h : PoolInv s) :
    PoolInv (fetchPage s pid).1 := by
  cases hl : assocFind s.pageTable pid with
  | some f =>
    simp only [fetchPage, hl]
    have hnf : f ∉ s.freeList := h.tableNotFree pid f hl
    constructor
    · intro g hgm
      have hgf : g ≠ f := fun he => hnf (he ▸ hgm)
      rw [frameAt_setFrame_ne _ f g _ hgf]
      exact h.freeReset g hgm
    · intro p f2 hfind
      exact h.tableNotFree p f2 hfind
    · intro g hgm
      exact h.replNotFree g (List.mem_of_mem_erase hgm)
    · exact h.replNodup.erase f
    · exact h.freeNodup
    · intro g hgm
      rw [show (setFrame { s with replacer := LRU.pin s.replacer f } f
          { frameAt { s with replacer := LRU.pin s.replacer f } f with
            pinCount := (frameAt { s with replacer := LRU.pin s.replacer f } f).pinCount + 1
          }).frames.length = s.frames.length from by simp [setFrame]]
      exact h.freeLt g hgm
    · intro p f2 hfind
      exact (frameAt_setFrame_pageId
        { s with replacer := LRU.pin s.replacer f } f f2
        { frameAt { s with replacer := LRU.pin s.replacer f } f with
          pinCount := (frameAt { s with replacer := LRU.pin s.replacer f } f).pinCount + 1 }
        rfl).trans (h.tablePageId p f2 hfind)
    · intro g hgm
      rw [show (setFrame { s with replacer := LRU.pin s.replacer f } f
          { frameAt { s with replacer := LRU.pin s.replacer f } f with
            pinCount := (frameAt { s with replacer := LRU.pin s.replacer f } f).pinCount + 1
          }).frames.length = s.frames.length from by simp [setFrame]]
      exact h.replLt g (List.mem_of_mem_erase hgm)
    · exact h.keysNodup
  | none =>
    simp only [fetchPage, hl]
    unfold findReplacementFrame
    cases hg : s.freeList.getLast? with
    | some f =>
      exact poolInv_install_free s pid (diskRead s.disk pid) s.nextPid f h hg
    | none =>
      have hfl : s.freeList = [] := getLast?_none_eq_nil _ hg
      cases hv : LRU.victim s.replacer with
      | none => exact h
      | some p =>
        by_cases hd : (frameAt { s with replacer := p.2 } p.1).isDirty
        · simp only [hd, if_pos]
          exact poolInv_install_victim s pid (diskRead _ pid) s.nextPid p.1 p.2 _ h hfl hv
        · simp only [hd]
          exact poolInv_install_victim s pid (diskRead _ pid) s.nextPid p.1 p.2 _ h hfl hv

theorem poolInv_newPage (s : State) (h : PoolInv s) :
    PoolInv (newPage s).1 := by
  unfold newPage findReplacementFrame
  cases hg : s.freeList.getLast? with
  | some f =>
    exact poolInv_install_free s s.nextPid 0 (s.nextPid + 1) f h hg
  | none =>
    have hfl : s.freeList = [] := getLast?_none_eq_nil _ hg
    cases hv : LRU.victim s.replacer with
    | none => exact h
    | some p =>
      by_cases hd : (frameAt { s with replacer := p.2 } p.1).isDirty
      · simp only [hd, if_pos]
        exact poolInv_install_victim s s.nextPid 0 (s.nextPid + 1) p.1 p.2 _ h hfl hv
      · simp only [hd]
        exact poolInv_install_victim s s.nextPid 0 (s.nextPid + 1) p.1 p.2 _ h hfl hv

end BPM

namespace BPM

theorem poolInv_unpinPage (s : State) (pid : Int) (d : Bool) (h : PoolInv s) :
    PoolInv (unpinPage s pid d).1 := by
  cases hl : assocFind s.pageTable pid with
  | none => simp only [unpinPage, hl]; exact h
  | some f =>
    rw [unpinPage_resident_eq s pid d f hl]
    have hnf : f ∉ s.freeList := h.tableNotFree pid f hl
    constructor
    · intro g hgm
      have hgf : g ≠ f := fun he => hnf (he ▸ hgm)
      rw [frameAt_setFrame_ne _ f g _ hgf]
      exact h.freeReset g hgm
    · intro p f2 hfind
      exact h.tableNotFree p f2 hfind
    · intro g hgm
      by_cases hp1 : (frameAt s f).pinCount = 1
      · rw [if_pos hp1] at hgm
        rcases (LRU.mem_unpin _ _ _).mp hgm with rfl | hgr
        · exact hnf
        · exact h.replNotFree g hgr
      · rw [if_neg hp1] at hgm
        exact h.replNotFree g hgm
    · by_cases hp1 : (frameAt s f).pinCount = 1
      · show (if (frameAt s f).pinCount = 1 then LRU.unpin s.replacer f else s.replacer).Nodup
        rw [if_pos hp1]
        exact LRU.unpin_nodup _ f h.replNodup
      · show (if (frameAt s f).pinCount = 1 then LRU.unpin s.replacer f else s.replacer).Nodup
        rw [if_neg hp1]
        exact h.replNodup
    · exact h.freeNodup
    · intro g hgm
      rw [show (setFrame
          { s with replacer :=
              if (frameAt s f).pinCount = 1 then LRU.unpin s.replacer f else s.replacer }
          f
          { frameAt s f with
            pinCount :=
              if 0 < (frameAt s f).pinCount then (frameAt s f).pinCount - 1
              else (frameAt s f).pinCount,
            isDirty := (frameAt s f).isDirty || d }).frames.length = s.frames.length
        from by simp [setFrame]]
      exact h.freeLt g hgm
    · intro p f2 hfind
      exact (frameAt_setFrame_pageId
        { s with replacer :=
            if (frameAt s f).pinCount = 1 then LRU.unpin s.replacer f else s.replacer }
        f f2
        { frameAt s f with
          pinCount :=
            if 0 < (frameAt s f).pinCount then (frameAt s f).pinCount - 1
            else (frameAt s f).pinCount,
          isDirty := (frameAt s f).isDirty || d }
        rfl).trans (h.tablePageId p f2 hfind)
    · intro g hgm
      rw [show (setFrame
          { s with replacer :=
              if (frameAt s f).pinCount = 1 then LRU.unpin s.replacer f else s.replacer }
          f
          { frameAt s f with
            pinCount :=
              if 0 < (frameAt s f).pinCount then (frameAt s f).pinCount - 1
              else (frameAt s f).pinCount,
            isDirty := (frameAt s f).isDirty || d }).frames.length = s.frames.length
        from by simp [setFrame]]
      by_cases hp1 : (frameAt s f).pinCount = 1
      · rw [if_pos hp1] at hgm
        rcases (LRU.mem_unpin _ _ _).mp hgm with rfl | hgr
        · by_cases hflen : g < s.frames.length
          · exact hflen
          · exfalso
            rw [frameAt_oor s g (by omega)] at hp1
            simp [emptyFrame] at hp1
        · exact h.replLt g hgr
      · rw [if_neg hp1] at hgm
        exact h.replLt g hgm
    · exact h.keysNodup

theorem poolInv_flushPage (s : State) (pid : Int) (h : PoolInv s) :
    PoolInv (flushPage s pid).1 := by
  cases hl : assocFind s.pageTable pid with
  | none => simp only [flushPage, hl]; exact h
  | some f =>
    simp only [flushPage, hl]
    by_cases hpid : pid = -1
    · rw [if_pos hpid]; exact h
    · rw [if_neg hpid]
      have hnf : f ∉ s.freeList := h.tableNotFree pid f hl
      constructor
      · intro g hgm
        have hgf : g ≠ f := fun he => hnf (he ▸ hgm)
        rw [frameAt_setFrame_ne _ f g _ hgf]
        exact h.freeReset g hgm
      · intro p f2 hfind
        exact h.tableNotFree p f2 hfind
      · intro g hgm
        exact h.replNotFree g hgm
      · exact h.replNodup
      · exact h.freeNodup
      · intro g hgm
        rw [show (setFrame { s with disk := assocPut s.disk pid (frameAt s f).data } f
            { frameAt s f with isDirty := false }).frames.length = s.frames.length
          from by simp [setFrame]]
        exact h.freeLt g hgm
      · intro p f2 hfind
        exact (frameAt_setFrame_pageId
          { s with disk := assocPut s.disk pid (frameAt s f).data } f f2
          { frameAt s f with isDirty := false }
          rfl).trans (h.tablePageId p f2 hfind)
      · intro g hgm
        rw [show (setFrame { s with disk := assocPut s.disk pid (frameAt s f).data } f
            { frameAt s f with isDirty := false }).frames.length = s.frames.length
          from by simp [setFrame]]
        exact h.replLt g hgm
      · exact h.keysNodup

end BPM

namespace BPM

theorem poolInv_delete_core (s : State) (pid : Int) (f : Nat) (d2 : List (Int × Int))
    (h : PoolInv s) (hpid : pid ≠ -1) (hl : assocFind s.pageTable pid = some f) :
    PoolInv (setFrame
      { s with pageTable := assocDrop s.pageTable pid, disk := d2,
               dealloc := s.dealloc ++ [pid], replacer := LRU.pin s.replacer f,
               freeList := s.freeList ++ [f] }
      f emptyFrame) := by
  have hnf : f ∉ s.freeList := h.tableNotFree pid f hl
  have hfpg : (frameAt s f).pageId = pid := h.tablePageId pid f hl
  have hflen : f < s.frames.length := by
    by_cases hflen : f < s.frames.length
    · exact hflen
    · exfalso
      rw [frameAt_oor s f (by omega)] at hfpg
      exact hpid (by rw [← hfpg]; rfl)
  constructor
  · intro g hgm
    rcases List.mem_append.mp hgm with hg1 | hg1
    · have hgf : g ≠ f := fun he => hnf (he ▸ hg1)
      exact (frameAt_setFrame_ne _ f g emptyFrame hgf).trans (h.freeReset g hg1)
    · have hgf : g = f := by simpa using hg1
      subst hgf
      exact frameAt_setFrame_self _ g emptyFrame (by simpa using hflen)
  · intro p f2 hfind
    by_cases hp : p = pid
    · rw [hp] at hfind
      rw [show (setFrame
          { s with pageTable := assocDrop s.pageTable pid, disk := d2,
                   dealloc := s.dealloc ++ [pid], replacer := LRU.pin s.replacer f,
                   freeList := s.freeList ++ [f] }
          f emptyFrame).pageTable = assocDrop s.pageTable pid from rfl,
        assocFind_drop_self _ _ h.keysNodup] at hfind
      exact absurd hfind (by simp)
    · rw [show (setFrame
          { s with pageTable := assocDrop s.pageTable pid, disk := d2,
                   dealloc := s.dealloc ++ [pid], replacer := LRU.pin s.replacer f,
                   freeList := s.freeList ++ [f] }
          f emptyFrame).pageTable = assocDrop s.pageTable pid from rfl,
        assocFind_drop_ne _ _ _ hp] at hfind
      have hf2 : f2 ≠ f := by
        intro he
        exact hp (by rw [← h.tablePageId p f2 hfind, he, hfpg])
      intro hm
      rcases List.mem_append.mp hm with hm1 | hm1
      · exact h.tableNotFree p f2 hfind hm1
      · exact hf2 (by simpa using hm1)
  · intro g hgm
    have hg1 : g ∈ s.replacer := List.mem_of_mem_erase hgm
    have hgf : g ≠ f := ((h.replNodup.mem_erase_iff).mp hgm).1
    intro hm
    rcases List.mem_append.mp hm with hm1 | hm1
    · exact h.replNotFree g hg1 hm1
    · exact hgf (by simpa using hm1)
  · exact h.replNodup.erase f
  · rw [show (setFrame
        { s with pageTable := assocDrop s.pageTable pid, disk := d2,
                 dealloc := s.dealloc ++ [pid], replacer := LRU.pin s.replacer f,
                 freeList := s.freeList ++ [f] }
        f emptyFrame).freeList = s.freeList ++ [f] from rfl,
      List.nodup_append]
    refine ⟨h.freeNodup, List.nodup_singleton f, ?_⟩
    intro a ha hb
    simp at hb
    subst hb
    exact hnf ha
  · intro g hgm
    rw [show (setFrame
        { s with pageTable := assocDrop s.pageTable pid, disk := d2,
                 dealloc := s.dealloc ++ [pid], replacer := LRU.pin s.replacer f,
                 freeList := s.freeList ++ [f] }
        f emptyFrame).frames.length = s.frames.length from by simp [setFrame]]
    rcases List.mem_append.mp hgm with hg1 | hg1
    · exact h.freeLt g hg1
    · have : g = f := by simpa using hg1
      subst this
      exact hflen
  · intro p f2 hfind
    by_cases hp : p = pid
    · rw [hp] at hfind
      rw [show (setFrame
          { s with pageTable := assocDrop s.pageTable pid, disk := d2,
                   dealloc := s.dealloc ++ [pid], replacer := LRU.pin s.replacer f,
                   freeList := s.freeList ++ [f] }
          f emptyFrame).pageTable = assocDrop s.pageTable pid from rfl,
        assocFind_drop_self _ _ h.keysNodup] at hfind
      exact absurd hfind (by simp)
    · rw [show (setFrame
          { s with pageTable := assocDrop s.pageTable pid, disk := d2,
                   dealloc := s.dealloc ++ [pid], replacer := LRU.pin s.replacer f,
                   freeList := s.freeList ++ [f] }
          f emptyFrame).pageTable = assocDrop s.pageTable pid from rfl,
        assocFind_drop_ne _ _ _ hp] at hfind
      have hf2 : f2 ≠ f := by
        intro he
        exact hp (by rw [← h.tablePageId p f2 hfind, he, hfpg])
      exact (congrArg Frame.pageId (frameAt_setFrame_ne _ f f2 emptyFrame hf2)).trans
        (h.tablePageId p f2 hfind)
  · intro g hgm
    rw [show (setFrame
        { s with pageTable := assocDrop s.pageTable pid, disk := d2,
                 dealloc := s.dealloc ++ [pid], replacer := LRU.pin s.replacer f,
                 freeList := s.freeList ++ [f] }
        f emptyFrame).frames.length = s.frames.length from by simp [setFrame]]
    exact h.replLt g (List.mem_of_mem_erase hgm)
  · exact assocDrop_keys_nodup _ _ h.keysNodup

theorem poolInv_deletePage (s : State) (pid : Int) (h : PoolInv s) :
    PoolInv (deletePage s pid).1 := by
  by_cases hpid : pid = -1
  · simp only [deletePage, if_pos hpid]; exact h
  · cases hl : assocFind s.pageTable pid with
    | none => simp only [deletePage, if_neg hpid, hl]; exact h
    | some f =>
      simp only [deletePage, if_neg hpid, hl]
      by_cases hp : 0 < (frameAt s f).pinCount
      · rw [if_pos hp]; exact h
      · rw [if_neg hp]
        by_cases hd : (frameAt s f).isDirty
        · simp only [hd, if_pos]
          exact poolInv_delete_core s pid f _ h hpid hl
        · simp only [hd]
          exact poolInv_delete_core s pid f _ h hpid hl

theorem poolInv_flushAll (s : State) (h : PoolInv s) : PoolInv (flushAll s) := by
  unfold flushAll
  exact foldlPreserve PoolInv _ (fun st fid hst => poolInv_flushPage st _ hst) _ s h

theorem poolInv_step (s : State) (op : Op) (h : PoolInv s) : PoolInv (step s op) := by
  cases op with
  | fetch pid => exact poolInv_fetchPage s pid h
  | newP => exact poolInv_newPage s h
  | unpin pid d => exact poolInv_unpinPage s pid d h
  | flush pid => exact poolInv_flushPage s pid h
  | del pid => exact poolInv_deletePage s pid h
  | flushAllOp => exact poolInv_flushAll s h

theorem poolInv_init (n : Nat) : PoolInv (init n) := by
  constructor
  · intro f hf
    have hlt : f < n := by simpa [init] using hf
    show (List.replicate n emptyFrame).getD f emptyFrame = emptyFrame
    rw [List.getD_eq_getElem?_getD, List.getElem?_replicate]
    simp [hlt]
  · intro p f hfind
    simp [init, assocFind] at hfind
  · intro f hf
    simp [init] at hf
  · simp [init]
  · simp [init, List.nodup_range]
  · intro f hf
    simp only [init, List.length_replicate]
    simpa [init] using hf
  · intro p f hfind
    simp [init, assocFind] at hfind
  · intro f hf
    simp [init] at hf
  · simp [init]

theorem poolInv_run (n : Nat) (ops : List Op) : PoolInv (run n ops) := by
  unfold run
  exact foldlPreserve PoolInv step (fun b a hb => poolInv_step b a hb) ops (init n)
    (poolInv_init n)

end BPM

/-- C10: in every reachable buffer-pool state, every frame on the free list
holds no page — its page id is INVALID (-1), its dirty bit is false and its
pin count is 0; consequently FetchPageImpl and NewPageImpl never write back
to disk when the free list is non-empty (the acquired frame then comes from
the free list, not from the replacer). -/
theorem c10_free_frames_hold_no_page (n : Nat) (ops : List BPM.Op) :
    (∀ f ∈ (BPM.run n ops).freeList,
        (BPM.frameAt (BPM.run n ops) f).pageId = -1
        ∧ (BPM.frameAt (BPM.run n ops) f).isDirty = false
        ∧ (BPM.frameAt (BPM.run n ops) f).pinCount = 0)
    ∧ (∀ s : BPM.State, ∀ pid : Int, s.freeList ≠ [] →
        (BPM.fetchPage s pid).1.disk = s.disk ∧ (BPM.newPage s).1.disk = s.disk) := by
  constructor
  · intro f hf
    have h := (BPM.poolInv_run n ops).freeReset f hf
    rw [h]
    exact ⟨rfl, rfl, rfl⟩
  · intro s pid hfl
    obtain ⟨f, hg⟩ : ∃ f, s.freeList.getLast? = some f := by
      cases hgl : s.freeList.getLast? with
      | none => exact absurd (getLast?_none_eq_nil _ hgl) hfl
      | some a => exact ⟨a, rfl⟩
    constructor
    · cases hl : assocFind s.pageTable pid with
      | some f2 => simp only [BPM.fetchPage, hl]; rfl
      | none =>
        simp only [BPM.fetchPage, hl]
        unfold BPM.findReplacementFrame
        rw [hg]
        rfl
    · unfold BPM.newPage BPM.findReplacementFrame
      rw [hg]
      rfl

theorem c10_free_frames_hold_no_page_witness :
    (∀ f ∈ (BPM.run 2 [BPM.Op.fetch 5, BPM.Op.unpin 5 true, BPM.Op.del 5]).freeList,
        (BPM.frameAt (BPM.run 2 [BPM.Op.fetch 5, BPM.Op.unpin 5 true, BPM.Op.del 5]) f).pageId = -1
        ∧ (BPM.frameAt (BPM.run 2 [BPM.Op.fetch 5, BPM.Op.unpin 5 true, BPM.Op.del 5]) f).isDirty = false
        ∧ (BPM.frameAt (BPM.run 2 [BPM.Op.fetch 5, BPM.Op.unpin 5 true, BPM.Op.del 5]) f).pinCount = 0)
    ∧ (BPM.fetchPage (BPM.init 2) 7).1.disk = (BPM.init 2).disk
    ∧ (BPM.newPage (BPM.init 2)).1.disk = (BPM.init 2).disk := by
  have h := c10_free_frames_hold_no_page 2 [BPM.Op.fetch 5, BPM.Op.unpin 5 true, BPM.Op.del 5]
  have h2 := h.2 (BPM.init 2) 7 (by decide)
  exact ⟨h.1, h2.1, h2.2⟩
